import Mathlib

/-!
Shallow embedding of the four scrapers of the fake-news-scrapper repository
(`earki.js`, `earki2_jokes.js`, `earki_satire_scraper.js`, and the unnamed
fact-watch scraper), together with theorems settling the specification
claims about identity resolution, CSV/JSONL encoding, the record sinks,
the incremental dedup loop, and the offset pagers.

Strings are modelled as Lean `String`/`List Char`; the regular-expression
matchers of the sources are modelled by explicit left-to-right scanners
with the same first-match semantics.
-/

namespace Scrapper

/-! ## Basic string scanning utilities -/

/-- Match a literal pattern at the head of a character list, returning the
rest of the input after the pattern when it matches. -/
def matchLit : List Char → List Char → Option (List Char)
  | [], s => some s
  | _ :: _, [] => none
  | p :: ps, c :: cs => if c = p then matchLit ps cs else none

/-- A JavaScript word character (`\w` = `[A-Za-z0-9_]`, ASCII only). -/
def isWordChar (c : Char) : Bool :=
  (('a' ≤ c ∧ c ≤ 'z') ∨ ('A' ≤ c ∧ c ≤ 'Z') ∨ ('0' ≤ c ∧ c ≤ '9') ∨ c = '_' : Prop)

/-- ASCII decimal digit, as matched by the JavaScript `\d` class. -/
def isDig (c : Char) : Bool := '0' ≤ c ∧ c ≤ '9'

/-- Generic first-match regex scan: try the literal pattern `pat` followed
by the continuation check `f` at every position, left to right, returning
the first capture.  When the pattern matches at a position but `f` rejects
the rest, the engine resumes from the next position, exactly as a
JavaScript regex does. -/
def scanFirst (pat : List Char) (f : List Char → Option (List Char)) :
    List Char → Option (List Char)
  | [] => none
  | c :: cs =>
    match matchLit pat (c :: cs) with
    | some rest => (f rest).elim (scanFirst pat f cs) some
    | none => scanFirst pat f cs

/-- Continuation of `post-` in `/post-(\d+)/`: at least one digit, the
maximal digit run being the capture. -/
def postIdCheck (rest : List Char) : Option (List Char) :=
  let ds := rest.takeWhile isDig
  if ds = [] then none else some ds

/-- `earki.js` `getArticleIdFromUrl`'s regex: first match of
`/post-(\d+)/`. -/
def scanPostId (l : List Char) : Option (List Char) :=
  scanFirst "post-".data postIdCheck l

/-- Continuation of `/jokes/joke/` in `/\/jokes\/joke\/(\d+)(?:\/|$)/`: a
nonempty maximal digit run (a shorter run would be followed by a digit,
failing `(?:\/|$)`, so backtracking cannot help) followed by `/` or the
end of the input. -/
def jokesIdCheck (rest : List Char) : Option (List Char) :=
  let ds := rest.takeWhile isDig
  let tl := rest.dropWhile isDig
  if ds ≠ [] ∧ (tl = [] ∨ tl.head? = some '/') then some ds else none

/-- `earki2_jokes.js` `getArticleIdFromUrl`'s regex: first match of
`/\/jokes\/joke\/(\d+)(?:\/|$)/`. -/
def scanJokesId (l : List Char) : Option (List Char) :=
  scanFirst "/jokes/joke/".data jokesIdCheck l

/-- After a digit, the regex word boundary `\b` holds exactly when the rest
of the input is empty or starts with a non-word character. -/
def wordBoundaryAfterDigit : List Char → Bool
  | [] => true
  | x :: _ => ! isWordChar x

/-- Continuation of `/satire/article/` in `/\/satire\/article\/(\d+)\b/`:
a nonempty maximal digit run with a word boundary after it. -/
def satireIdCheck (rest : List Char) : Option (List Char) :=
  let ds := rest.takeWhile isDig
  let tl := rest.dropWhile isDig
  if ds ≠ [] ∧ wordBoundaryAfterDigit tl then some ds else none

/-- `earki_satire_scraper.js` `getArticleIdFromUrl`'s regex: first match of
`/\/satire\/article\/(\d+)\b/`. -/
def scanSatireId (l : List Char) : Option (List Char) :=
  scanFirst "/satire/article/".data satireIdCheck l

/-- `earki2_jokes.js` `getArticleIdFromUrl(url)`:
`String(url).match(/\/jokes\/joke\/(\d+)(?:\/|$)/)`, returning the captured
digits or `null` (modelled as `none`). -/
def jokesGetArticleIdFromUrl (url : String) : Option String :=
  (scanJokesId url.data).map fun ds => ⟨ds⟩

/-- `earki_satire_scraper.js` `getArticleIdFromUrl(url)`:
`url.match(/\/satire\/article\/(\d+)\b/)`, returning the captured digits or
`null`. -/
def satireGetArticleIdFromUrl (url : String) : Option String :=
  (scanSatireId url.data).map fun ds => ⟨ds⟩

/-! ## URL parsing (model of the WHATWG `new URL` constructor)

The scrapers only read `pathname` and `hostname` of parsed URLs, and only
feed hierarchical `scheme://authority/path` URLs.  The model parses that
form: a nonempty ASCII-alphabetic scheme, `://`, a nonempty authority
(userinfo and port stripped from the hostname, host lowercased), and a
pathname running up to `?` or `#` (defaulting to `/`).  Any other input
makes the constructor throw, modelled as `none`.  Path normalization and
percent-encoding are not modelled; no claim depends on them. -/

/-- Lowercase an ASCII letter, the (ASCII fragment of the) case mapping
used by JavaScript `toLowerCase` and by host normalization. -/
def asciiLowerChar (c : Char) : Char :=
  if 65 ≤ c.toNat ∧ c.toNat ≤ 90 then Char.ofNat (c.toNat + 32) else c

/-- Lowercase every ASCII letter of a string. -/
def asciiLower (s : String) : String := ⟨s.data.map asciiLowerChar⟩

/-- Split a character list on `/`. -/
def splitSlash : List Char → List (List Char)
  | [] => [[]]
  | c :: cs =>
    if c = '/' then [] :: splitSlash cs
    else
      match splitSlash cs with
      | [] => [[c]]
      | g :: gs => (c :: g) :: gs

structure URLParts where
  scheme : String
  hostname : String
  pathname : String
  deriving DecidableEq

/-- ASCII letter, the characters accepted for a URL scheme. -/
def isSchemeChar (c : Char) : Bool := ('a' ≤ c ∧ c ≤ 'z') ∨ ('A' ≤ c ∧ c ≤ 'Z')

/-- Characters ending the authority section of a URL. -/
def isAuthorityEnd (c : Char) : Bool := c = '/' ∨ c = '?' ∨ c = '#'

/-- Characters inside the authority section of a URL. -/
def isAuthChar (c : Char) : Bool := ! isAuthorityEnd c

/-- Characters belonging to the path (everything before `?` or `#`). -/
def isPathChar (c : Char) : Bool := c ≠ '?' ∧ c ≠ '#'

/-- Hostname of an authority: drop a `userinfo@` prefix if present, cut a
`:port` suffix, lowercase. -/
def hostOfAuthority (auth : List Char) : List Char :=
  let afterUser := if auth.contains '@' then (auth.dropWhile (· ≠ '@')).drop 1 else auth
  (afterUser.takeWhile (· ≠ ':')).map asciiLowerChar

/-- Model of `new URL(url)` for hierarchical URLs (see section comment);
`none` models the constructor throwing. -/
def parseURL (url : String) : Option URLParts :=
  let cs := url.data
  let scheme := cs.takeWhile isSchemeChar
  if scheme = [] then none
  else
    match matchLit "://".data (cs.drop scheme.length) with
    | none => none
    | some rest =>
      let auth := rest.takeWhile isAuthChar
      if auth = [] then none
      else
        let tail := rest.dropWhile isAuthChar
        let path := if tail.head? = some '/' then tail.takeWhile isPathChar else ['/']
        some ⟨⟨scheme.map asciiLowerChar⟩, ⟨hostOfAuthority auth⟩, ⟨path⟩⟩

/-- Fact-watch scraper `slugFromUrl`: the last non-empty `/`-segment of the
pathname, or `""` for malformed or path-less URLs (`catch` branch and the
`|| ""` default). -/
def slugFromUrl (url : String) : String :=
  match parseURL url with
  | none => ""
  | some u =>
    let parts := (splitSlash u.pathname.data).filter (· ≠ [])
    match parts.getLast? with
    | none => ""
    | some seg => ⟨seg⟩

/-- `earki.js` `hostnamePretty`: hostname with a leading `www.` stripped,
`null` on a malformed URL. -/
def hostnamePretty (url : String) : Option String :=
  (parseURL url).map fun u =>
    match matchLit "www.".data u.hostname.data with
    | some rest => ⟨rest⟩
    | none => u.hostname

/-- `earki.js` `categoryFromSlug`: last non-empty pathname segment of the
category href, `null` when absent, malformed, or path-less. -/
def categoryFromSlug (categoryHref : Option String) : Option String :=
  match categoryHref with
  | none => none
  | some href =>
    match parseURL href with
    | none => none
    | some u =>
      let parts := (splitSlash u.pathname.data).filter (· ≠ [])
      match parts.getLast? with
      | none => none
      | some seg => some ⟨seg⟩

/-! ## SHA-1 (model of Node's `crypto.createHash("sha1")` hex digest)

Words are `Nat` reduced mod `2^32` at every step. -/

/-- 32-bit truncation. -/
def w32 (n : Nat) : Nat := n % 2 ^ 32

/-- 32-bit left rotation. -/
def rotl (k n : Nat) : Nat := w32 (n <<< k) ||| (w32 n >>> (32 - k))

/-- 32-bit complement. -/
def not32 (n : Nat) : Nat := 2 ^ 32 - 1 - w32 n

/-- SHA-1 padding: append `0x80`, zero bytes to 56 mod 64, and the 64-bit
big-endian bit length. -/
def sha1Pad (msg : List Nat) : List Nat :=
  let len := msg.length
  let zeros := (55 + 64 - len % 64) % 64
  let bitLen := len * 8
  msg ++ 0x80 :: List.replicate zeros 0 ++
    ((List.range 8).map fun i => bitLen >>> (8 * (7 - i)) % 256)

/-- Split a byte list into 64-byte chunks (structural recursion on a fuel
bounded by the list length, so the definition reduces in the kernel). -/
def chunksAux : Nat → List Nat → List (List Nat)
  | 0, _ => []
  | _, [] => []
  | fuel + 1, c :: cs => (c :: cs).take 64 :: chunksAux fuel ((c :: cs).drop 64)

/-- Split a byte list into 64-byte chunks. -/
def chunks64 (l : List Nat) : List (List Nat) := chunksAux l.length l

/-- 16 big-endian 32-bit words from a 64-byte chunk. -/
def wordsOfChunk (chunk : List Nat) : Array Nat :=
  ((List.range 16).map fun i =>
    chunk.getD (4 * i) 0 <<< 24 ||| chunk.getD (4 * i + 1) 0 <<< 16 |||
    chunk.getD (4 * i + 2) 0 <<< 8 ||| chunk.getD (4 * i + 3) 0).toArray

/-- Message schedule: extend 16 words to 80. -/
def sha1Schedule (ws : Array Nat) : Array Nat :=
  (List.range 64).foldl
    (fun arr _ =>
      let n := arr.size
      arr.push (rotl 1 (arr.getD (n - 3) 0 ^^^ arr.getD (n - 8) 0 ^^^
        arr.getD (n - 14) 0 ^^^ arr.getD (n - 16) 0)))
    ws

/-- Round function and constant for round `i`. -/
def sha1F (i b c d : Nat) : Nat × Nat :=
  if i < 20 then ((b &&& c) ||| (not32 b &&& d), 0x5A827999)
  else if i < 40 then (b ^^^ c ^^^ d, 0x6ED9EBA1)
  else if i < 60 then ((b &&& c) ||| (b &&& d) ||| (c &&& d), 0x8F1BBCDC)
  else (b ^^^ c ^^^ d, 0xCA62C1D6)

/-- Process one 64-byte chunk into the running state. -/
def sha1Chunk (h : Nat × Nat × Nat × Nat × Nat) (chunk : List Nat) :
    Nat × Nat × Nat × Nat × Nat :=
  let ws := sha1Schedule (wordsOfChunk chunk)
  let (h0, h1, h2, h3, h4) := h
  let st := (List.range 80).foldl
    (fun (st : Nat × Nat × Nat × Nat × Nat) i =>
      let (a, b, c, d, e) := st
      let (f, k) := sha1F i b c d
      (w32 (rotl 5 a + f + e + k + ws.getD i 0), a, rotl 30 b, c, d))
    (h0, h1, h2, h3, h4)
  let (a, b, c, d, e) := st
  (w32 (h0 + a), w32 (h1 + b), w32 (h2 + c), w32 (h3 + d), w32 (h4 + e))

/-- Lowercase hex digit. -/
def hexDigit (n : Nat) : Char := "0123456789abcdef".data.getD n '0'

/-- Fixed-width 8-digit hex rendering of a 32-bit word. -/
def toHex8 (n : Nat) : List Char :=
  (List.range 8).map fun i => hexDigit (n >>> (4 * (7 - i)) % 16)

/-- UTF-8 bytes of a string, as `Nat`s. -/
def utf8Bytes (s : String) : List Nat :=
  (s.data.flatMap String.utf8EncodeChar).map UInt8.toNat

/-- The five 32-bit state words after absorbing all chunks of `s`. -/
def sha1Digest (s : String) : Nat × Nat × Nat × Nat × Nat :=
  (chunks64 (sha1Pad (utf8Bytes s))).foldl sha1Chunk
    (0x67452301, 0xEFCDAB89, 0x98BADCFE, 0x10325476, 0xC3D2E1F0)

/-- `sha1(s)` of `earki.js`: hex digest of the UTF-8 bytes of `s`. -/
def sha1Hex (s : String) : String :=
  let h := sha1Digest s
  ⟨toHex8 h.1 ++ toHex8 h.2.1 ++ toHex8 h.2.2.1 ++ toHex8 h.2.2.2.1 ++ toHex8 h.2.2.2.2⟩

/-- `earki.js` `getArticleIdFromUrl`: the digits of the first
`post-<digits>` match in the pathname, else `sha1(url)` (also on a
malformed URL, via the `catch`). -/
def jachaiGetArticleIdFromUrl (url : String) : String :=
  match parseURL url with
  | some u =>
    match scanPostId u.pathname.data with
    | some ds => ⟨ds⟩
    | none => sha1Hex url
  | none => sha1Hex url

/-! ## CSV field encodings -/

/-- Double every `"`, the replacement `s.replace(/"/g, '""')`. -/
def escQuotes : List Char → List Char
  | [] => []
  | c :: cs => if c = '"' then '"' :: '"' :: escQuotes cs else c :: escQuotes cs

/-- The test `/[,"\n]/.test(str)` of `earki.js` `csvEscape`. -/
def needsQuote (l : List Char) : Bool :=
  l.contains ',' || l.contains '"' || l.contains '\n'

/-- `earki.js` `csvEscape`: `null`/`undefined` become the empty field; a
value containing a comma, double quote, or newline is wrapped in double
quotes with inner quotes doubled; anything else passes through. -/
def csvEscape (v : Option String) : String :=
  match v with
  | none => ""
  | some s => if needsQuote s.data then ⟨'"' :: (escQuotes s.data ++ ['"'])⟩ else s

/-- The replacement `.replace(/\r?\n/g, " ")`: every `\r\n` or bare `\n`
becomes one space, scanning left to right. -/
def collapseNewlines : List Char → List Char
  | [] => []
  | [c] => if c = '\n' then [' '] else [c]
  | c :: c2 :: cs =>
    if c = '\n' then ' ' :: collapseNewlines (c2 :: cs)
    else if c = '\r' ∧ c2 = '\n' then ' ' :: collapseNewlines cs
    else c :: collapseNewlines (c2 :: cs)

/-- JavaScript `String.prototype.trim` whitespace (the ASCII fragment plus
NBSP and the BOM; other Unicode space separators are not modelled — no
claim depends on them). -/
def isJsSpace (c : Char) : Bool :=
  c = ' ' ∨ c = '\t' ∨ c = '\n' ∨ c = '\r' ∨ c = '\x0b' ∨ c = '\x0c' ∨
    c = ' ' ∨ c = '﻿'

/-- JavaScript `trim()`: strip leading and trailing whitespace. -/
def trimJs (l : List Char) : List Char :=
  ((l.dropWhile isJsSpace).reverse.dropWhile isJsSpace).reverse

/-- `toCsvField` of `earki2_jokes.js` and of the fact-watch scraper
(identical code): `null`/`undefined` become the empty field; otherwise
newlines are collapsed to spaces and the value trimmed, then wrapped in
double quotes (inner quotes doubled) when it contains a quote or comma. -/
def toCsvField (v : Option String) : String :=
  match v with
  | none => ""
  | some val =>
    let s := trimJs (collapseNewlines val.data)
    if s.contains '"' || s.contains ',' then ⟨'"' :: (escQuotes s ++ ['"'])⟩ else ⟨s⟩

/-- Standard tabular parser for the inside of a quoted field: `""` decodes
to `"`, a lone closing quote must end the field. -/
def csvUnquote : List Char → Option (List Char)
  | [] => none
  | c :: cs =>
    if c = '"' then
      match cs with
      | [] => some []
      | c2 :: cs2 => if c2 = '"' then (csvUnquote cs2).map (fun l => '"' :: l) else none
    else (csvUnquote cs).map (fun l => c :: l)

/-- Standard tabular parser for one field: a field starting with `"` is
unquoted, any other field must contain no quote, comma, or newline and
denotes itself. -/
def csvParseField (s : String) : Option String :=
  if s.data.head? = some '"' then (csvUnquote s.data.tail).map fun l => (⟨l⟩ : String)
  else if s.data.contains '"' || s.data.contains ',' || s.data.contains '\n' then none
  else some s

/-- `[f1, ..., fn].join(",")`. -/
def joinComma : List (List Char) → List Char
  | [] => []
  | [f] => f
  | f :: fs => f ++ ',' :: joinComma fs

/-! ## JSON string encoding (model of `JSON.stringify` on strings) -/

/-- `JSON.stringify` escape of one character: `"`, `\\` and the named
control characters get two-character escapes, other control characters get
`\u00XX`, everything else is itself. -/
def jsonEscapeChar (c : Char) : List Char :=
  if c = '"' then ['\\', '"']
  else if c = '\\' then ['\\', '\\']
  else if c = '\n' then ['\\', 'n']
  else if c = '\r' then ['\\', 'r']
  else if c = '\t' then ['\\', 't']
  else if c = '\x08' then ['\\', 'b']
  else if c = '\x0c' then ['\\', 'f']
  else if c.toNat < 32 then ['\\', 'u', '0', '0', hexDigit (c.toNat / 16), hexDigit (c.toNat % 16)]
  else [c]

/-- `JSON.stringify` of a string value. -/
def jsonEncodeString (s : String) : String :=
  ⟨'"' :: (s.data.flatMap jsonEscapeChar ++ ['"'])⟩

/-- Numeric value of a hex digit character. -/
def hexVal (c : Char) : Nat :=
  if '0' ≤ c ∧ c ≤ '9' then c.toNat - 48
  else if 'a' ≤ c ∧ c ≤ 'f' then c.toNat - 87
  else if 'A' ≤ c ∧ c ≤ 'F' then c.toNat - 55
  else 0

/-- Whether a character is one of the named two-character JSON escape
codes. -/
def isNamedEscape (e : Char) : Bool :=
  e = '"' ∨ e = '\\' ∨ e = 'n' ∨ e = 'r' ∨ e = 't' ∨ e = 'b' ∨ e = 'f'

/-- Decoded character of a named two-character JSON escape. -/
def namedEscapeChar (e : Char) : Char :=
  if e = '"' then '"'
  else if e = '\\' then '\\'
  else if e = 'n' then '\n'
  else if e = 'r' then '\r'
  else if e = 't' then '\t'
  else if e = 'b' then '\x08'
  else '\x0c'

/-- Standard JSON string-body parser: decode escapes until the closing
quote, returning the decoded content and what follows the quote. -/
def jsonUnescapeUntilQuote : List Char → Option (List Char × List Char)
  | [] => none
  | c :: cs =>
    if c = '"' then some ([], cs)
    else if c = '\\' then
      match cs with
      | [] => none
      | e :: cs2 =>
        if isNamedEscape e then
          (jsonUnescapeUntilQuote cs2).map fun (l, r) => (namedEscapeChar e :: l, r)
        else if e = 'u' then
          match cs2 with
          | h1 :: h2 :: h3 :: h4 :: cs3 =>
            (jsonUnescapeUntilQuote cs3).map fun (l, r) =>
              (Char.ofNat (hexVal h1 * 4096 + hexVal h2 * 256 + hexVal h3 * 16 + hexVal h4)
                :: l, r)
          | _ => none
        else none
    else (jsonUnescapeUntilQuote cs).map fun (l, r) => (c :: l, r)

/-- Standard JSON parser for one string value: an opening quote, a body
decoded up to the closing quote, and nothing after it. -/
def jsonDecodeString (s : String) : Option String :=
  if s.data.head? = some '"' then
    (jsonUnescapeUntilQuote s.data.tail).bind fun p =>
      if p.2 = [] then some ⟨p.1⟩ else none
  else none

/-! ## Records and the dual-format sink -/

/-- The row shape built in `earki.js`'s main loop (nullable fields from
the listing/extractor, label fixed by the caller). -/
structure EarkiRow where
  article_id : String
  publisher : Option String
  source : String
  category : Option String
  published_at : Option String
  headline : String
  content : Option String
  label : Nat
  deriving DecidableEq

/-- The record shape of `earki2_jokes.js` `buildRecord`, of
`earki_satire_scraper.js`'s record literal, and of the fact-watch
`scrapeSinglePost` (string fields defaulted to `""`, nullable
`content`). -/
structure ArticleRec where
  article_id : String
  publisher : String
  source : String
  category : String
  published_at : String
  headline : String
  content : Option String
  label : Nat
  deriving DecidableEq

/-- `JSON.stringify` of `null` or of a string value. -/
def jsonOptStr : Option String → String
  | none => "null"
  | some s => jsonEncodeString s

/-- `JSON.stringify(row)` for the `earki.js` row (insertion order of the
object literal). -/
def earkiJsonLine (r : EarkiRow) : String :=
  "\x7b\"article_id\":" ++ jsonEncodeString r.article_id ++
  ",\"publisher\":" ++ jsonOptStr r.publisher ++
  ",\"source\":" ++ jsonEncodeString r.source ++
  ",\"category\":" ++ jsonOptStr r.category ++
  ",\"published_at\":" ++ jsonOptStr r.published_at ++
  ",\"headline\":" ++ jsonEncodeString r.headline ++
  ",\"content\":" ++ jsonOptStr r.content ++
  ",\"label\":" ++ toString r.label ++ "\x7d"

/-- `JSON.stringify(record)` for the jokes/satire/fact-watch record. -/
def articleJsonLine (r : ArticleRec) : String :=
  "\x7b\"article_id\":" ++ jsonEncodeString r.article_id ++
  ",\"publisher\":" ++ jsonEncodeString r.publisher ++
  ",\"source\":" ++ jsonEncodeString r.source ++
  ",\"category\":" ++ jsonEncodeString r.category ++
  ",\"published_at\":" ++ jsonEncodeString r.published_at ++
  ",\"headline\":" ++ jsonEncodeString r.headline ++
  ",\"content\":" ++ jsonOptStr r.content ++
  ",\"label\":" ++ toString r.label ++ "\x7d"

/-- The CSV line of `earki.js` `appendRow`: each field through
`csvEscape` except the numeric `label`, joined by commas,
newline-terminated. -/
def earkiCsvLine (r : EarkiRow) : String :=
  ⟨joinComma [(csvEscape (some r.article_id)).data, (csvEscape r.publisher).data,
    (csvEscape (some r.source)).data, (csvEscape r.category).data,
    (csvEscape r.published_at).data, (csvEscape (some r.headline)).data,
    (csvEscape r.content).data, (toString r.label).data] ++ ['\n']⟩

/-- The CSV line of the jokes/fact-watch `writeRecord`: all eight fields
(`content` defaulted to `""` when null, `label` through `String(v)`)
through `toCsvField`, joined by commas, newline-terminated. -/
def articleCsvLine (r : ArticleRec) : String :=
  ⟨joinComma [(toCsvField (some r.article_id)).data, (toCsvField (some r.publisher)).data,
    (toCsvField (some r.source)).data, (toCsvField (some r.category)).data,
    (toCsvField (some r.published_at)).data, (toCsvField (some r.headline)).data,
    (toCsvField (some (r.content.getD ""))).data,
    (toCsvField (some (toString r.label))).data] ++ ['\n']⟩

/-! ## File-system model for the sink -/

/-- The two output files of one scraper; `none` means the file does not
exist. -/
structure FSState where
  csv : Option String
  jsonl : Option String
  deriving DecidableEq

/-- The fixed tabular header row. -/
def headerLine : String :=
  "article_id,publisher,source,category,published_at,headline,content,label\n"

/-- `fs.appendFileSync`: creates the file when missing, else appends. -/
def appendFile (f : Option String) (chunk : String) : Option String :=
  some (f.getD "" ++ chunk)

/-- `earki.js` `ensureOutputs`: create the CSV with a UTF-8 BOM and the
header row when missing; `unlink` an existing JSONL.  Note the JSONL is
*not* created here — it first exists at the first append. -/
def ensureOutputs (fs : FSState) : FSState :=
  { csv :=
      match fs.csv with
      | none => some ("\uFEFF" ++ headerLine)
      | some c => some c,
    jsonl := none }

/-- `ensureOut` of `earki2_jokes.js` and the fact-watch scraper: create an
empty JSONL and a CSV holding the header row when missing. -/
def ensureOut (fs : FSState) : FSState :=
  { csv :=
      match fs.csv with
      | none => some headerLine
      | some c => some c,
    jsonl :=
      match fs.jsonl with
      | none => some ""
      | some j => some j }

/-- `earki.js` `appendRow`: append the CSV line to the CSV file and the
JSON line to the JSONL file. -/
def appendRow (fs : FSState) (r : EarkiRow) : FSState :=
  { csv := appendFile fs.csv (earkiCsvLine r),
    jsonl := appendFile fs.jsonl (earkiJsonLine r ++ "\n") }

/-- `writeRecord` of `earki2_jokes.js` and the fact-watch scraper. -/
def writeRecord (fs : FSState) (r : ArticleRec) : FSState :=
  { csv := appendFile fs.csv (articleCsvLine r),
    jsonl := appendFile fs.jsonl (articleJsonLine r ++ "\n") }

/-- Number of newline-terminated lines of a file's content. -/
def lineCount (s : String) : Nat := s.data.count '\n'

/-- Decidable "no string field of the row contains a newline". -/
def optNoNewline (o : Option String) : Bool :=
  match o with
  | none => true
  | some s => ! s.data.contains '\n'

/-- Decidable "no field of the `earki.js` row contains a newline". -/
def rowNoNewline (r : EarkiRow) : Bool :=
  ! r.article_id.data.contains '\n' && optNoNewline r.publisher &&
  ! r.source.data.contains '\n' && optNoNewline r.category &&
  optNoNewline r.published_at && ! r.headline.data.contains '\n' &&
  optNoNewline r.content

/-! ## Dates (model of `new Date(string)` and `toISOString`)

`new Date(string)` is modelled on the ECMA-262 Date Time String Format
`YYYY[-MM[-DD]][THH:mm[:ss[.sss]][Z|+HH:mm|-HH:mm]]`; engine-specific
fallback formats are out of the format and parse to an invalid date
(`none`), and a date-time without offset (host-local time in JavaScript)
is interpreted as UTC. -/

/-- Numeric value of a digit run. -/
def natOfDigits (ds : List Char) : Nat :=
  ds.foldl (fun a c => a * 10 + (c.toNat - 48)) 0

/-- Read exactly `n` digits. -/
def readDigits (n : Nat) (l : List Char) : Option (Nat × List Char) :=
  let ds := l.take n
  if ds.length = n ∧ ds.all isDig then some (natOfDigits ds, l.drop n) else none

def isLeap (y : Nat) : Bool := y % 4 = 0 ∧ (y % 100 ≠ 0 ∨ y % 400 = 0)

def daysInMonth (y m : Nat) : Nat :=
  if m = 2 then (if isLeap y then 29 else 28)
  else if m = 4 ∨ m = 6 ∨ m = 9 ∨ m = 11 then 30
  else 31

/-- Days since 1970-01-01 of a civil date (the standard era-based
algorithm, with floor divisions). -/
def daysFromCivil (y : Int) (m d : Nat) : Int :=
  let y2 : Int := if m ≤ 2 then y - 1 else y
  let era : Int := y2.ediv 400
  let yoe : Nat := (y2 - era * 400).toNat
  let mp : Nat := (m + 9) % 12
  let doy : Nat := (153 * mp + 2) / 5 + d - 1
  let doe : Nat := yoe * 365 + yoe / 4 - yoe / 100 + doy
  era * 146097 + (doe : Int) - 719468

/-- Civil date of a count of days since 1970-01-01. -/
def civilFromDays (z : Int) : Int × Nat × Nat :=
  let z2 := z + 719468
  let era := z2.ediv 146097
  let doe : Nat := (z2 - era * 146097).toNat
  let yoe : Nat := (doe - doe / 1460 + doe / 36524 - doe / 146096) / 365
  let doy : Nat := doe - (365 * yoe + yoe / 4 - yoe / 100)
  let mp : Nat := (5 * doy + 2) / 153
  let d : Nat := doy - (153 * mp + 2) / 5 + 1
  let m : Nat := if mp < 10 then mp + 3 else mp - 9
  (era * 400 + yoe + (if m ≤ 2 then 1 else 0), m, d)

/-- Left-pad a number with zeros to width `w`. -/
def padNum (w n : Nat) : String :=
  let s := toString n
  ⟨List.replicate (w - s.length) '0' ++ s.data⟩

/-- `Date.prototype.toISOString` for times whose year is 0..9999: the
`YYYY-MM-DDTHH:mm:ss.sssZ` rendering of an epoch-milliseconds value
(the extended-year rendering outside that range is not modelled). -/
def toISOString (ms : Int) : String :=
  let day := ms.ediv 86400000
  let msOfDay := (ms - day * 86400000).toNat
  let c := civilFromDays day
  padNum 4 c.1.toNat ++ "-" ++ padNum 2 c.2.1 ++ "-" ++ padNum 2 c.2.2 ++ "T" ++
  padNum 2 (msOfDay / 3600000) ++ ":" ++ padNum 2 (msOfDay / 60000 % 60) ++ ":" ++
  padNum 2 (msOfDay / 1000 % 60) ++ "." ++ padNum 3 (msOfDay % 1000) ++ "Z"

/-- Date part `YYYY[-MM[-DD]]`; omitted month/day default to 1. -/
def parseDatePart (l : List Char) : Option (Nat × Nat × Nat × List Char) :=
  (readDigits 4 l).bind fun p1 =>
    if p1.2.head? = some '-' then
      (readDigits 2 p1.2.tail).bind fun p2 =>
        if p2.2.head? = some '-' then
          (readDigits 2 p2.2.tail).map fun p3 => (p1.1, p2.1, p3.1, p3.2)
        else some (p1.1, p2.1, 1, p2.2)
    else some (p1.1, 1, 1, p1.2)

/-- Optional `.sss` milliseconds. -/
def parseMsPart (l : List Char) : Option (Nat × List Char) :=
  if l.head? = some '.' then readDigits 3 l.tail
  else some (0, l)

/-- Time part `HH:mm[:ss[.sss]]`. -/
def parseTimePart (l : List Char) : Option (Nat × Nat × Nat × Nat × List Char) :=
  (readDigits 2 l).bind fun hp =>
    if hp.2.head? = some ':' then
      (readDigits 2 hp.2.tail).bind fun mp =>
        if mp.2.head? = some ':' then
          (readDigits 2 mp.2.tail).bind fun sp =>
            (parseMsPart sp.2).map fun msp => (hp.1, mp.1, sp.1, msp.1, msp.2)
        else some (hp.1, mp.1, 0, 0, mp.2)
    else none

/-- Offset `Z`, `+HH:mm` or `-HH:mm`, in minutes; must consume all
remaining input. -/
def parseOffsetMinutes (l : List Char) : Option Int :=
  if l = ['Z'] then some 0
  else if l.head? = some '+' ∨ l.head? = some '-' then
    (readDigits 2 l.tail).bind fun hh =>
      if hh.2.head? = some ':' then
        (readDigits 2 hh.2.tail).bind fun mm =>
          if mm.2 = [] ∧ hh.1 ≤ 23 ∧ mm.1 ≤ 59 then
            some ((if l.head? = some '-' then -1 else 1) * (hh.1 * 60 + mm.1))
          else none
      else none
  else none

def validDate (y m d : Nat) : Bool := 1 ≤ m ∧ m ≤ 12 ∧ 1 ≤ d ∧ d ≤ daysInMonth y m

def validTime (h mi se ms : Nat) : Bool :=
  (h ≤ 23 ∨ (h = 24 ∧ mi = 0 ∧ se = 0 ∧ ms = 0)) ∧ mi ≤ 59 ∧ se ≤ 59

/-- Epoch milliseconds of a date string, `none` for an invalid date. -/
def jsDateParse (s : String) : Option Int :=
  (parseDatePart s.data).bind fun dp =>
    if validDate dp.1 dp.2.1 dp.2.2.1 then
      if dp.2.2.2 = [] then some (daysFromCivil dp.1 dp.2.1 dp.2.2.1 * 86400000)
      else if dp.2.2.2.head? = some 'T' then
        (parseTimePart dp.2.2.2.tail).bind fun tp =>
          if validTime tp.1 tp.2.1 tp.2.2.1 tp.2.2.2.1 then
            let base := daysFromCivil dp.1 dp.2.1 dp.2.2.1 * 86400000 +
              ((tp.1 * 3600000 + tp.2.1 * 60000 + tp.2.2.1 * 1000 + tp.2.2.2.1 : Nat) : Int)
            if tp.2.2.2.2 = [] then some base
            else (parseOffsetMinutes tp.2.2.2.2).map fun off => base - off * 60000
          else none
      else none
    else none

/-- `earki.js` `normalizeDateISO`: `null` for a falsy or unparseable
input, else the ISO-8601 UTC rendering. -/
def normalizeDateISO (dt : Option String) : Option String :=
  match dt with
  | none => none
  | some s => if s = "" then none else (jsDateParse s).map toISOString

/-! ## Record builders and labels -/

/-- One listing card of `earki.js` `scrapeListPage`, after the
`url && headline` filter. -/
structure JachaiItem where
  url : String
  headline : String
  categoryHref : Option String
  published_at_raw : Option String
  deriving DecidableEq

/-- The row built for one listing item in `earki.js`'s main loop
(label is the literal 0: "all fake in this section"). -/
def earkiRowOf (it : JachaiItem) (content : Option String) : EarkiRow :=
  { article_id := jachaiGetArticleIdFromUrl it.url,
    publisher := hostnamePretty it.url,
    source := it.url,
    category := categoryFromSlug it.categoryHref,
    published_at := normalizeDateISO it.published_at_raw,
    headline := it.headline,
    content := content,
    label := 0 }

/-- `earki2_jokes.js` `buildRecord` (`|| ""` defaults on the raw
published time and headline, label 0). -/
def buildRecord (url : String) (published_at headline content : Option String) :
    ArticleRec :=
  { article_id := (jokesGetArticleIdFromUrl url).getD "",
    publisher := "earki", source := url, category := "jokes",
    published_at := published_at.getD "", headline := headline.getD "",
    content := content, label := 0 }

/-- The record literal of `earki_satire_scraper.js`'s main loop. -/
def satireRecord (url : String) (published_at : String) (headline content : Option String) :
    ArticleRec :=
  { article_id := (satireGetArticleIdFromUrl url).getD "",
    publisher := "earki", source := url, category := "article",
    published_at := published_at, headline := headline.getD "",
    content := content, label := 0 }

/-- Substring occurrence of a literal pattern (first-match scan). -/
def containsLit (pat l : List Char) : Bool := (scanFirst pat (fun r => some r) l).isSome

/-- `/false/i.test(s)`: for the all-lowercase pattern `false`,
case-insensitive matching is testing the lowercased text for the
literal. -/
def regexTestFalseI (s : String) : Bool := containsLit "false".data (asciiLower s).data

/-- The record built by the fact-watch `scrapeSinglePost` when the
fact-check schema block exists: the in-page extractor lowercases the
schema block's text, and the label is 0 when `/false/i` matches it,
else 1. -/
def scrapeSinglePostRecord (url headline published_at content schemaRawText : String) :
    ArticleRec :=
  let schemaText := asciiLower schemaRawText
  { article_id := slugFromUrl url,
    publisher := "fact-watch", source := url, category := "fact-check",
    published_at := published_at, headline := headline,
    content := if content = "" then none else some content,
    label := if regexTestFalseI schemaText then 0 else 1 }

/-! ## The incremental jokes loop (`earki2_jokes.js`)

One "round" is one call of `processNewCardsOnList` (the initial call plus
one after each Load-More click); the DOM state it sees is modelled as the
list of card hrefs present at that moment, and `scrapeOneArticle`'s
outcome (record vs `null` after an error) as an oracle on the URL.
`MAX_ARTICLES` is `Infinity` in the source, so its early-exit branch is
dead code and not modelled. -/

/-- The in-page `Set`-based dedupe of `collectLinkObjs`: keep the first
occurrence of each element, in order. -/
def dedupGo (seen : List String) : List String → List String
  | [] => []
  | x :: xs => if x ∈ seen then dedupGo seen xs else x :: dedupGo (x :: seen) xs

/-- `new URL(href, "https://www.earki.co").href` for the path-absolute
hrefs the jokes listing selector yields. -/
def earkiAbs (href : String) : String :=
  if href.data.head? = some '/' then "https://www.earki.co" ++ href else href

/-- The id a card gets in `collectLinkObjs`:
`getArticleIdFromUrl(url) || ""`. -/
def jokesIdOrEmpty (url : String) : String := (jokesGetArticleIdFromUrl url).getD ""

/-- `collectLinkObjs`: the anchors matching `a[href^="/jokes/joke"]`,
hrefs absolutized against the origin, de-duped by absolute URL in on-page
order, each paired with its extracted id. -/
def collectLinkObjs (hrefs : List String) : List (String × String) :=
  let anchors := hrefs.filter fun h => (matchLit "/jokes/joke".data h.data).isSome
  let urls := dedupGo [] (anchors.map earkiAbs)
  urls.map fun url => (url, jokesIdOrEmpty url)

/-- One `processNewCardsOnList` call: filter the cards to those with a
non-empty id not yet in `seenIds`, dispatch each of them to
`scrapeOneArticle`, persist the successes and add their ids to `seenIds`.
Returns (dispatched URLs, persisted URLs, new seen set). -/
def processNewCards (fetchOk : String → Bool) (seen : List String)
    (cards : List (String × String)) : List String × List String × List String :=
  let newOnes := cards.filter fun c => c.2 ≠ "" ∧ c.2 ∉ seen
  (newOnes.map (·.1),
    (newOnes.filter fun c => fetchOk c.1).map (·.1),
    seen ++ (newOnes.filter fun c => fetchOk c.1).map (·.2))

/-- The whole incremental run over a sequence of page snapshots: the
per-round (dispatched, persisted) batches. -/
def jokesRun (fetchOk : String → Bool) : List (List String) → List String →
    List (List String × List String)
  | [], _ => []
  | snap :: rest, seen =>
    let r := processNewCards fetchOk seen (collectLinkObjs snap)
    (r.1, r.2.1) :: jokesRun fetchOk rest r.2.2

/-! ## The offset pagers (`earki.js` and the fact-watch scraper)

List-page rendering and detail-page fetching are external collaborators;
a run is modelled against oracles: for each page number, what rendering
it produced (or that it threw), and for each detail URL, the fetch
outcome.  In `earki.js` the detail fetch (`fetchArticleContent`) can
throw out of its `goto` — that exception reaches the page loop's `catch`
and ends the run — while the fact-watch `scrapeSinglePost` catches
everything and yields `null`. -/

/-- One `article.list-view` node as read by `earki.js`
`scrapeListPage`. -/
structure JachaiNode where
  titleA : Option (String × String)
  categoryHref : Option String
  dateContent : Option String
  deriving DecidableEq

/-- Rendering outcome of an `earki.js` list page: the `goto` (or any step
of the `try` block before item processing) threw, or a response status
(`res?.status() || 0`) with the card nodes. -/
inductive JachaiRender where
  | err : JachaiRender
  | ok (status : Nat) (nodes : List JachaiNode) : JachaiRender

/-- Outcome of `earki.js` `fetchArticleContent`: an uncaught navigation
throw, or the (nullable) body text. -/
inductive DetailResult where
  | threw : DetailResult
  | value (content : Option String) : DetailResult
  deriving DecidableEq

/-- `scrapeListPage`'s mapping plus its `x.url && x.headline` filter
(empty strings are falsy). -/
def extractItems (nodes : List JachaiNode) : List JachaiItem :=
  nodes.filterMap fun n =>
    match n.titleA with
    | none => none
    | some (href, text) =>
      let headline := trimJs text.data
      if href ≠ "" ∧ headline ≠ [] then
        some ⟨href, ⟨headline⟩, n.categoryHref, n.dateContent⟩
      else none

/-- Content of a non-throwing detail fetch. -/
def contentOf : DetailResult → Option String
  | .threw => none
  | .value c => c

/-- The per-item body of `earki.js`'s page loop: fetch each item's
content and build its row; a throw aborts the remaining items (the
second component records that the loop's `catch` was entered). -/
def earkiProcessItems (d : String → DetailResult) :
    List JachaiItem → List EarkiRow × Bool
  | [] => ([], false)
  | it :: rest =>
    match d it.url with
    | .threw => ([], true)
    | .value content =>
      let pr := earkiProcessItems d rest
      (earkiRowOf it content :: pr.1, pr.2)

def START_PAGE : Nat := 1
def MAX_PAGES : Nat := 500

/-- The `earki.js` page loop from page `pnum` with `fuel` remaining
iterations: returns the pages fetched and the rows persisted, stopping on
an HTTP status ≥ 400, a page without `article.list-view` nodes, or any
thrown error (the `catch` + `break`). -/
def earkiGo (o : Nat → JachaiRender) (d : String → DetailResult) :
    Nat → Nat → List Nat × List EarkiRow
  | 0, _ => ([], [])
  | fuel + 1, pnum =>
    match o pnum with
    | .err => ([pnum], [])
    | .ok status nodes =>
      if 400 ≤ status then ([pnum], [])
      else if nodes.length = 0 then ([pnum], [])
      else
        let pr := earkiProcessItems d (extractItems nodes)
        if pr.2 then ([pnum], pr.1)
        else
          let rest := earkiGo o d fuel (pnum + 1)
          (pnum :: rest.1, pr.1 ++ rest.2)

/-- The whole `earki.js` run: pages `START_PAGE..MAX_PAGES`. -/
def earkiMain (o : Nat → JachaiRender) (d : String → DetailResult) :
    List Nat × List EarkiRow :=
  earkiGo o d MAX_PAGES START_PAGE

/-- The rows a good `earki.js` page contributes. -/
def earkiPageRows (o : Nat → JachaiRender) (d : String → DetailResult) (p : Nat) :
    List EarkiRow :=
  match o p with
  | .err => []
  | .ok _ nodes => (extractItems nodes).map fun it => earkiRowOf it (contentOf (d it.url))

/-- A page on which the `earki.js` loop continues: rendering succeeded
with status < 400, at least one card node, and no detail fetch threw. -/
def goodPage (o : Nat → JachaiRender) (d : String → DetailResult) (q : Nat) : Bool :=
  match o q with
  | .err => false
  | .ok st nodes =>
    st < 400 ∧ nodes ≠ [] ∧ ∀ it ∈ extractItems nodes, d it.url ≠ DetailResult.threw

/-- A page on which the `earki.js` loop stops before processing items. -/
def badPage (o : Nat → JachaiRender) (q : Nat) : Bool :=
  match o q with
  | .err => true
  | .ok st nodes => 400 ≤ st ∨ nodes = []

/-- Rendering outcome of a fact-watch list page: a throw anywhere in the
`try` block (all caught, yielding 0 saved), or the title-anchor hrefs. -/
inductive FactwatchRender where
  | err : FactwatchRender
  | ok (hrefs : List String) : FactwatchRender

/-- `new URL(href, location.origin).href` on the fact-watch listing for a
path-absolute href. -/
def factwatchAbs (href : String) : String :=
  if href.data.head? = some '/' then "https://www.fact-watch.org" ++ href else href

/-- `collectCardUrlsOnList`: skip empty hrefs, absolutize, dedupe keeping
first occurrences. -/
def collectCardUrls (hrefs : List String) : List String :=
  dedupGo [] ((hrefs.filter (· ≠ "")).map factwatchAbs)

/-- One fact-watch list page: a caught error or an empty grid contribute
no records; otherwise every card URL is scraped (`Promise.all` keeps
input order) and the non-null results are persisted. -/
def factwatchPage (o : Nat → FactwatchRender) (dF : String → Option ArticleRec)
    (p : Nat) : List ArticleRec :=
  match o p with
  | .err => []
  | .ok hrefs => (collectCardUrls hrefs).filterMap dF

def FIRST_PAGE : Nat := 1
def LAST_PAGE : Nat := 70

/-- The fact-watch page loop from page `p` with `fuel` remaining
iterations: every page is fetched, whatever the previous pages
returned. -/
def factwatchGo (o : Nat → FactwatchRender) (dF : String → Option ArticleRec) :
    Nat → Nat → List Nat × List ArticleRec
  | 0, _ => ([], [])
  | fuel + 1, p =>
    let recs := factwatchPage o dF p
    let rest := factwatchGo o dF fuel (p + 1)
    (p :: rest.1, recs ++ rest.2)

/-- The whole fact-watch run: pages `FIRST_PAGE..LAST_PAGE`. -/
def factwatchMain (o : Nat → FactwatchRender) (dF : String → Option ArticleRec) :
    List Nat × List ArticleRec :=
  factwatchGo o dF LAST_PAGE FIRST_PAGE

/-! ## Lemmas about the scanners -/

theorem matchLit_append_self (p s : List Char) : matchLit p (p ++ s) = some s := by
  induction p with
  | nil => rfl
  | cons c cs ih => simp [matchLit, ih]

/-- `mismatches p l` holds when the literal `p` provably fails against `l`
by a character mismatch strictly inside `l` (not by `l` running out), so
that the failure persists under any extension of `l`. -/
def mismatches : List Char → List Char → Bool
  | _, [] => false
  | [], _ :: _ => false
  | p :: ps, c :: cs => if c = p then mismatches ps cs else true

theorem matchLit_eq_none_of_mismatches :
    ∀ {p l : List Char}, mismatches p l = true → ∀ s, matchLit p (l ++ s) = none
  | [], [], h, _ => by simp [mismatches] at h
  | [], _ :: _, h, _ => by simp [mismatches] at h
  | _ :: _, [], h, _ => by simp [mismatches] at h
  | p :: ps, c :: cs, h, s => by
    by_cases hc : c = p
    · subst hc
      simp only [mismatches, if_pos rfl] at h
      simpa [matchLit] using matchLit_eq_none_of_mismatches h s
    · simp [matchLit, hc]

theorem scanFirst_cons_none {pat : List Char} {f : List Char → Option (List Char)}
    {c : Char} {cs : List Char} (h : matchLit pat (c :: cs) = none) :
    scanFirst pat f (c :: cs) = scanFirst pat f cs := by
  simp [scanFirst, h]

theorem scanFirst_append_skip {pat : List Char} {f : List Char → Option (List Char)} :
    ∀ (pre suf : List Char),
      (∀ i, i < pre.length → mismatches pat (pre.drop i) = true) →
      scanFirst pat f (pre ++ suf) = scanFirst pat f suf
  | [], _, _ => rfl
  | c :: pre, suf, h => by
    have h0 : mismatches pat (c :: pre) = true := h 0 (Nat.succ_pos _)
    have hm : matchLit pat ((c :: pre) ++ suf) = none :=
      matchLit_eq_none_of_mismatches h0 suf
    rw [List.cons_append] at hm ⊢
    rw [scanFirst_cons_none hm]
    exact scanFirst_append_skip pre suf fun i hi => h (i + 1) (Nat.succ_lt_succ hi)

theorem scanFirst_found {pat : List Char} {f : List Char → Option (List Char)}
    (hp : pat ≠ []) {s r : List Char} (h : f s = some r) :
    scanFirst pat f (pat ++ s) = some r := by
  match pat, hp with
  | p :: ps, _ =>
    have hm : matchLit (p :: ps) (p :: (ps ++ s)) = some s := by
      simpa using matchLit_append_self (p :: ps) s
    simp [scanFirst, hm, h]

/-- Anything a `scanFirst` scan returns was produced by its continuation
check. -/
theorem scanFirst_sound {pat : List Char} {f : List Char → Option (List Char)}
    {P : List Char → Prop} (hf : ∀ s r, f s = some r → P r) :
    ∀ {l r}, scanFirst pat f l = some r → P r
  | [], _, h => by simp [scanFirst] at h
  | c :: cs, r, h => by
    rw [scanFirst] at h
    cases hm : matchLit pat (c :: cs) with
    | none => rw [hm] at h; exact scanFirst_sound hf h
    | some rest =>
      rw [hm] at h
      dsimp only at h
      cases hfr : f rest with
      | none =>
        rw [hfr] at h
        simp only [Option.elim] at h
        exact scanFirst_sound hf h
      | some r' =>
        rw [hfr] at h
        simp only [Option.elim] at h
        cases h
        exact hf rest _ hfr

/-- `takeWhile` over an extended list, when the scan provably stops inside
the left part. -/
theorem takeWhile_append_stop {α : Type} {p : α → Bool} {l : List α}
    (h : l.dropWhile p ≠ []) (s : List α) :
    (l ++ s).takeWhile p = l.takeWhile p := by
  rw [List.takeWhile_append, if_neg]
  intro hlen
  apply h
  have hsum := congrArg List.length (List.takeWhile_append_dropWhile p l)
  rw [List.length_append, hlen] at hsum
  exact List.eq_nil_of_length_eq_zero (by omega)

/-- `dropWhile` over an extended list, when the scan provably stops inside
the left part. -/
theorem dropWhile_append_stop {α : Type} {p : α → Bool} {l : List α}
    (h : l.dropWhile p ≠ []) (s : List α) :
    (l ++ s).dropWhile p = l.dropWhile p ++ s := by
  rw [List.dropWhile_append, if_neg]
  simpa using h

theorem data_ne_nil {d : String} (hd : d ≠ "") : d.data ≠ [] :=
  fun h => hd (String.ext (h.trans rfl))

theorem mk_data (d : String) : (⟨d.data⟩ : String) = d := rfl

/-- The jokes id scanner on a canonical jokes detail URL returns exactly
the digit segment. -/
theorem scanJokesId_canonical (d slug : String) (hd : d ≠ "")
    (hdig : ∀ c ∈ d.data, isDig c = true) :
    jokesGetArticleIdFromUrl ("https://www.earki.co/jokes/joke/" ++ d ++ "/" ++ slug) =
      some d := by
  have hdata : ("https://www.earki.co/jokes/joke/" ++ d ++ "/" ++ slug).data =
      "https://www.earki.co".data ++ ("/jokes/joke/".data ++ (d.data ++ '/' :: slug.data)) := by
    simp
  have hcheck : jokesIdCheck (d.data ++ '/' :: slug.data) = some d.data := by
    unfold jokesIdCheck
    rw [List.takeWhile_append_of_pos hdig, List.dropWhile_append_of_pos hdig]
    have hslash : isDig '/' = false := by decide
    have ht : ('/' :: slug.data).takeWhile isDig = [] := by
      simp [List.takeWhile_cons, hslash]
    have hdp : ('/' :: slug.data).dropWhile isDig = '/' :: slug.data := by
      simp [List.dropWhile_cons, hslash]
    rw [ht, hdp]
    simp [data_ne_nil hd]
  unfold jokesGetArticleIdFromUrl scanJokesId
  rw [hdata,
    scanFirst_append_skip "https://www.earki.co".data _ (by decide),
    scanFirst_found (by decide) hcheck]
  simp [mk_data]

/-- The satire id scanner on a canonical satire detail URL returns exactly
the digit segment. -/
theorem scanSatireId_canonical (d slug : String) (hd : d ≠ "")
    (hdig : ∀ c ∈ d.data, isDig c = true) :
    satireGetArticleIdFromUrl ("https://www.earki.co/satire/article/" ++ d ++ "/" ++ slug) =
      some d := by
  have hdata : ("https://www.earki.co/satire/article/" ++ d ++ "/" ++ slug).data =
      "https://www.earki.co".data ++
        ("/satire/article/".data ++ (d.data ++ '/' :: slug.data)) := by
    simp
  have hcheck : satireIdCheck (d.data ++ '/' :: slug.data) = some d.data := by
    unfold satireIdCheck
    rw [List.takeWhile_append_of_pos hdig, List.dropWhile_append_of_pos hdig]
    have hslash : isDig '/' = false := by decide
    have ht : ('/' :: slug.data).takeWhile isDig = [] := by
      simp [List.takeWhile_cons, hslash]
    have hdp : ('/' :: slug.data).dropWhile isDig = '/' :: slug.data := by
      simp [List.dropWhile_cons, hslash]
    rw [ht, hdp]
    simp [data_ne_nil hd, wordBoundaryAfterDigit]
    decide
  unfold satireGetArticleIdFromUrl scanSatireId
  rw [hdata,
    scanFirst_append_skip "https://www.earki.co".data _ (by decide),
    scanFirst_found (by decide) hcheck]
  simp [mk_data]

/-- Evaluation of the URL parser on a jachai fact-check detail URL with an
arbitrary query-free suffix after `post-`. -/
theorem parseURL_jachai_shape (url : String) (X : List Char)
    (hurl : url.data = "https://www.jachai.org/fact-checks/post-".data ++ X)
    (hX : ∀ c ∈ X, isPathChar c = true) :
    parseURL url =
      some ⟨"https", "www.jachai.org", ⟨"/fact-checks/post-".data ++ X⟩⟩ := by
  unfold parseURL
  rw [hurl]
  dsimp only
  have e1 : ("https://www.jachai.org/fact-checks/post-".data ++ X).takeWhile isSchemeChar =
      "https".data := by
    rw [takeWhile_append_stop (by decide) X]
    decide
  rw [e1, if_neg (by decide)]
  have e2 : ("https://www.jachai.org/fact-checks/post-".data : List Char) ++ X =
      "https".data ++ ("://www.jachai.org/fact-checks/post-".data ++ X) := by
    simp
  rw [e2, List.drop_left' rfl]
  have e3 : ("://www.jachai.org/fact-checks/post-".data : List Char) ++ X =
      "://".data ++ ("www.jachai.org/fact-checks/post-".data ++ X) := by
    simp
  rw [e3, matchLit_append_self]
  have e4 : ("www.jachai.org/fact-checks/post-".data ++ X).takeWhile isAuthChar =
      "www.jachai.org".data := by
    rw [takeWhile_append_stop (by decide) X]
    decide
  have e5 : ("www.jachai.org/fact-checks/post-".data ++ X).dropWhile isAuthChar =
      '/' :: ("fact-checks/post-".data ++ X) := by
    rw [dropWhile_append_stop (by decide) X]
    have : ("www.jachai.org/fact-checks/post-".data : List Char).dropWhile isAuthChar =
        "/fact-checks/post-".data := by decide
    rw [this]
    simp
  dsimp only
  rw [e4, if_neg (by decide), e5]
  rw [show ('/' :: ("fact-checks/post-".data ++ X)).head? = some '/' from rfl, if_pos rfl]
  have e6 : ('/' :: ("fact-checks/post-".data ++ X)).takeWhile isPathChar =
      '/' :: ("fact-checks/post-".data ++ X) := by
    apply List.takeWhile_eq_self_iff.mpr
    intro c hc
    rcases List.mem_cons.mp hc with h | h
    · subst h; decide
    · rcases List.mem_append.mp h with h | h
      · revert h
        have : ∀ c ∈ ("fact-checks/post-".data : List Char), isPathChar c = true := by decide
        exact this c
      · exact hX c h
  rw [e6]
  have e7 : '/' :: ("fact-checks/post-".data ++ X) =
      ("/fact-checks/post-".data : List Char) ++ X := by
    simp
  have hs : (⟨List.map asciiLowerChar "https".data⟩ : String) = "https" := by decide
  have hh : (⟨hostOfAuthority "www.jachai.org".data⟩ : String) = "www.jachai.org" := by
    decide
  rw [e7, hs, hh]

/-- The jachai id resolver on a canonical fact-check detail URL returns
exactly the digit segment. -/
theorem jachaiId_canonical (d : String) (hd : d ≠ "")
    (hdig : ∀ c ∈ d.data, isDig c = true) :
    jachaiGetArticleIdFromUrl ("https://www.jachai.org/fact-checks/post-" ++ d ++ "/") = d := by
  have hdig' : ∀ c ∈ d.data, isPathChar c = true := by
    intro c hc
    have h := of_decide_eq_true (hdig c hc)
    apply decide_eq_true
    constructor
    · intro he; subst he; exact absurd h (by decide)
    · intro he; subst he; exact absurd h (by decide)
  have hparse := parseURL_jachai_shape
    ("https://www.jachai.org/fact-checks/post-" ++ d ++ "/") (d.data ++ ['/'])
    (by simp)
    (by
      intro c hc
      rcases List.mem_append.mp hc with h | h
      · exact hdig' c h
      · simp at h; subst h; decide)
  have hscan : scanPostId ("/fact-checks/post-".data ++ (d.data ++ ['/'])) = some d.data := by
    have e1 : ("/fact-checks/post-".data : List Char) ++ (d.data ++ ['/']) =
        "/fact-checks/".data ++ ("post-".data ++ (d.data ++ ['/'])) := by
      simp
    unfold scanPostId
    rw [e1, scanFirst_append_skip "/fact-checks/".data _ (by decide)]
    apply scanFirst_found (by decide)
    unfold postIdCheck
    rw [List.takeWhile_append_of_pos hdig]
    have : (['/'] : List Char).takeWhile isDig = [] := by decide
    rw [this]
    simp [data_ne_nil hd]
  unfold jachaiGetArticleIdFromUrl
  rw [hparse]
  dsimp only
  rw [hscan]

/-- Any capture produced by `postIdCheck` is a nonempty digit run. -/
theorem postIdCheck_sound (s r : List Char) (h : postIdCheck s = some r) :
    r ≠ [] ∧ ∀ c ∈ r, isDig c = true := by
  simp only [postIdCheck] at h
  split at h
  · cases h
  · next hne =>
    cases h
    exact ⟨hne, fun c hc => List.mem_takeWhile_imp hc⟩

theorem toHex8_length (n : Nat) : (toHex8 n).length = 8 := by
  simp [toHex8]

theorem sha1Hex_length (s : String) : (sha1Hex s).length = 40 := by
  unfold sha1Hex
  dsimp only
  show (toHex8 _ ++ toHex8 _ ++ toHex8 _ ++ toHex8 _ ++ toHex8 _).length = 40
  simp [toHex8_length]

theorem sha1Hex_ne_empty (s : String) : sha1Hex s ≠ "" := by
  intro h
  have hl := sha1Hex_length s
  rw [h] at hl
  exact absurd hl (by decide)

theorem hexDigit_mem (n : Nat) : hexDigit n ∈ "0123456789abcdef".data := by
  unfold hexDigit
  rcases Nat.lt_or_ge n ("0123456789abcdef".data.length) with h | h
  · rw [List.getD_eq_getElem?_getD, List.getElem?_eq_getElem h]
    exact List.getElem_mem h
  · rw [List.getD_eq_getElem?_getD, List.getElem?_eq_none h]
    decide

theorem toHex8_mem {c : Char} {n : Nat} (h : c ∈ toHex8 n) :
    c ∈ "0123456789abcdef".data := by
  simp only [toHex8, List.mem_map] at h
  obtain ⟨i, _, rfl⟩ := h
  exact hexDigit_mem _

theorem sha1Hex_all_hex (s : String) :
    ∀ c ∈ (sha1Hex s).data, c ∈ "0123456789abcdef".data := by
  unfold sha1Hex
  dsimp only
  intro c hc
  show c ∈ "0123456789abcdef".data
  simp only [List.mem_append] at hc
  rcases hc with (((h | h) | h) | h) | h <;> exact toHex8_mem h

/-- C6: the identity resolver is deterministic — two calls on the same URL
yield the same id — and for URLs matching each site's numeric-id pattern
(`post-<digits>`, `/jokes/joke/<digits>`, `/satire/article/<digits>`) the
returned identifier is exactly the captured digit string. -/
theorem C6_resolver_deterministic_and_exact_digits
    (u d slug : String) (hd : d ≠ "") (hdig : ∀ c ∈ d.data, isDig c = true) :
    (jachaiGetArticleIdFromUrl u = jachaiGetArticleIdFromUrl u ∧
      jokesGetArticleIdFromUrl u = jokesGetArticleIdFromUrl u ∧
      satireGetArticleIdFromUrl u = satireGetArticleIdFromUrl u ∧
      slugFromUrl u = slugFromUrl u) ∧
    jachaiGetArticleIdFromUrl ("https://www.jachai.org/fact-checks/post-" ++ d ++ "/") = d ∧
    jokesGetArticleIdFromUrl ("https://www.earki.co/jokes/joke/" ++ d ++ "/" ++ slug) =
      some d ∧
    satireGetArticleIdFromUrl ("https://www.earki.co/satire/article/" ++ d ++ "/" ++ slug) =
      some d :=
  ⟨⟨rfl, rfl, rfl, rfl⟩, jachaiId_canonical d hd hdig,
    scanJokesId_canonical d slug hd hdig, scanSatireId_canonical d slug hd hdig⟩

/-- Witness for C6 at the concrete joke id 11081. -/
theorem C6_witness :
    jachaiGetArticleIdFromUrl ("https://www.jachai.org/fact-checks/post-" ++ "11081" ++ "/") =
      "11081" ∧
    jokesGetArticleIdFromUrl ("https://www.earki.co/jokes/joke/" ++ "11081" ++ "/" ++ "funny") =
      some "11081" ∧
    satireGetArticleIdFromUrl
      ("https://www.earki.co/satire/article/" ++ "11081" ++ "/" ++ "funny") = some "11081" := by
  have h := C6_resolver_deterministic_and_exact_digits "u" "11081" "funny"
    (by decide) (by decide)
  exact ⟨h.2.1, h.2.2.1, h.2.2.2⟩

/-- C7 counterexample: two of the repository's identity resolvers return an
empty (or absent) identifier instead of a hash fallback — the jokes and
satire resolvers return `null` off-pattern, and `slugFromUrl` returns `""`
for a path-less URL — refuting "returns a non-empty identifier" for "the
identity resolver" in general. -/
theorem C7_counterexample :
    jokesGetArticleIdFromUrl "https://www.earki.co/jokes" = none ∧
    satireGetArticleIdFromUrl "https://www.earki.co/satire" = none ∧
    slugFromUrl "https://www.fact-watch.org" = "" ∧
    slugFromUrl "not a url" = "" := by
  decide

/-- C7 amended: only `earki.js`'s resolver carries the hash fallback — it
never returns an empty id, and whenever URL parsing fails it returns the
SHA-1 hex digest of the full URL, which always has exactly 40 lowercase
hex characters.  (All resolvers are total functions — "never throws" — by
construction of the model.) -/
theorem C7_jachai_nonempty_hex_fallback (s : String) :
    jachaiGetArticleIdFromUrl s ≠ "" ∧
    (parseURL s = none → jachaiGetArticleIdFromUrl s = sha1Hex s) ∧
    (sha1Hex s).length = 40 ∧
    ∀ c ∈ (sha1Hex s).data, c ∈ "0123456789abcdef".data := by
  refine ⟨?_, ?_, sha1Hex_length s, sha1Hex_all_hex s⟩
  · unfold jachaiGetArticleIdFromUrl
    cases hp : parseURL s with
    | none => exact sha1Hex_ne_empty s
    | some u =>
      dsimp only
      cases hs : scanPostId u.pathname.data with
      | none => exact sha1Hex_ne_empty s
      | some ds =>
        have hsound : ds ≠ [] ∧ ∀ c ∈ ds, isDig c = true :=
          scanFirst_sound (fun s r h => postIdCheck_sound s r h) hs
        intro he
        exact hsound.1 (congrArg String.data he)
  · intro hp
    unfold jachaiGetArticleIdFromUrl
    rw [hp]

/-! ## Lemmas about the CSV and JSON encodings -/

theorem csvUnquote_cons_ne {c : Char} (hc : ¬ c = '"') (cs : List Char) :
    csvUnquote (c :: cs) = (csvUnquote cs).map (fun l => c :: l) := by
  rw [csvUnquote.eq_def]
  dsimp only
  rw [if_neg hc]

theorem csvUnquote_quote_nil : csvUnquote ['"'] = some [] := rfl

theorem csvUnquote_quote_cons (c2 : Char) (cs2 : List Char) :
    csvUnquote ('"' :: c2 :: cs2) =
      if c2 = '"' then (csvUnquote cs2).map (fun l => '"' :: l) else none := by
  rw [csvUnquote.eq_def]
  dsimp only
  rw [if_pos rfl]

theorem escQuotes_cons (c : Char) (cs : List Char) :
    escQuotes (c :: cs) =
      if c = '"' then '"' :: '"' :: escQuotes cs else c :: escQuotes cs := by
  rw [escQuotes.eq_def]

theorem collapseNewlines_no_newline : ∀ l : List Char, '\n' ∉ collapseNewlines l := by
  intro l
  induction l using collapseNewlines.induct with
  | case1 => simp [collapseNewlines]
  | case2 => decide
  | case3 c hc =>
    rw [collapseNewlines.eq_def]
    dsimp only
    rw [if_neg hc]
    simp only [List.mem_singleton]
    exact fun h => hc h.symm
  | case4 c2 cs ih =>
    rw [collapseNewlines.eq_def]
    dsimp only
    rw [if_pos rfl]
    simp only [List.mem_cons]
    rintro (h | h)
    · exact absurd h (by decide)
    · exact ih h
  | case5 c c2 cs h1 h2 ih =>
    rw [collapseNewlines.eq_def]
    dsimp only
    rw [if_neg h1, if_pos h2]
    simp only [List.mem_cons]
    rintro (h | h)
    · exact absurd h (by decide)
    · exact ih h
  | case6 c c2 cs h1 h2 ih =>
    rw [collapseNewlines.eq_def]
    dsimp only
    rw [if_neg h1, if_neg h2]
    simp only [List.mem_cons]
    rintro (h | h)
    · exact h1 h.symm
    · exact ih h

theorem mem_of_mem_escQuotes {c : Char} :
    ∀ {l : List Char}, c ∈ escQuotes l → c = '"' ∨ c ∈ l
  | [], h => by simp [escQuotes] at h
  | x :: xs, h => by
    rw [escQuotes_cons] at h
    by_cases hx : x = '"'
    · rw [if_pos hx] at h
      rcases List.mem_cons.mp h with h | h
      · exact Or.inl h
      · rcases List.mem_cons.mp h with h | h
        · exact Or.inl h
        · rcases mem_of_mem_escQuotes h with h | h
          · exact Or.inl h
          · exact Or.inr (List.mem_cons_of_mem _ h)
    · rw [if_neg hx] at h
      rcases List.mem_cons.mp h with h | h
      · exact Or.inr (List.mem_cons.mpr (Or.inl h))
      · rcases mem_of_mem_escQuotes h with h | h
        · exact Or.inl h
        · exact Or.inr (List.mem_cons_of_mem _ h)

theorem mem_escQuotes_of_mem {c : Char} :
    ∀ {l : List Char}, c ∈ l → c ∈ escQuotes l
  | x :: xs, h => by
    rw [escQuotes_cons]
    rcases List.mem_cons.mp h with h | h
    · subst h
      by_cases hx : c = '"'
      · rw [if_pos hx, hx]; simp
      · rw [if_neg hx]; simp
    · by_cases hx : x = '"'
      · rw [if_pos hx]
        exact List.mem_cons_of_mem _ (List.mem_cons_of_mem _ (mem_escQuotes_of_mem h))
      · rw [if_neg hx]
        exact List.mem_cons_of_mem _ (mem_escQuotes_of_mem h)

theorem mem_of_mem_trimJs {c : Char} {l : List Char} (h : c ∈ trimJs l) : c ∈ l := by
  unfold trimJs at h
  rw [List.mem_reverse] at h
  have h1 := (List.dropWhile_sublist (l := (l.dropWhile isJsSpace).reverse) isJsSpace).mem h
  rw [List.mem_reverse] at h1
  exact (List.dropWhile_sublist isJsSpace).mem h1

theorem csvUnquote_escQuotes : ∀ l : List Char, csvUnquote (escQuotes l ++ ['"']) = some l := by
  intro l
  induction l with
  | nil => simp [escQuotes, csvUnquote_quote_nil]
  | cons c cs ih =>
    rw [escQuotes_cons]
    by_cases hc : c = '"'
    · subst hc
      rw [if_pos rfl, List.cons_append, List.cons_append, csvUnquote_quote_cons, if_pos rfl, ih]
      rfl
    · rw [if_neg hc, List.cons_append, csvUnquote_cons_ne hc, ih]
      rfl

theorem hexVal_hexDigit : ∀ m, m < 16 → hexVal (hexDigit m) = m := by decide

theorem jsonU_quote (cs : List Char) : jsonUnescapeUntilQuote ('"' :: cs) = some ([], cs) := by
  rw [jsonUnescapeUntilQuote.eq_def]
  dsimp only
  rw [if_pos rfl]

theorem jsonU_named {e : Char} (h : isNamedEscape e = true) (cs : List Char) :
    jsonUnescapeUntilQuote ('\\' :: e :: cs) =
      (jsonUnescapeUntilQuote cs).map fun (l, r) => (namedEscapeChar e :: l, r) := by
  rw [jsonUnescapeUntilQuote.eq_def]
  dsimp only
  rw [if_neg (by decide), if_pos rfl, if_pos h]

theorem jsonU_u (h1 h2 h3 h4 : Char) (cs : List Char) :
    jsonUnescapeUntilQuote ('\\' :: 'u' :: h1 :: h2 :: h3 :: h4 :: cs) =
      (jsonUnescapeUntilQuote cs).map fun (l, r) =>
        (Char.ofNat (hexVal h1 * 4096 + hexVal h2 * 256 + hexVal h3 * 16 + hexVal h4)
          :: l, r) := by
  rw [jsonUnescapeUntilQuote.eq_def]
  dsimp only
  rw [if_neg (by decide), if_pos rfl, if_neg (by decide), if_pos rfl]

theorem jsonU_plain {c : Char} (hq : ¬ c = '"') (hb : ¬ c = '\\') (cs : List Char) :
    jsonUnescapeUntilQuote (c :: cs) =
      (jsonUnescapeUntilQuote cs).map fun (l, r) => (c :: l, r) := by
  rw [jsonUnescapeUntilQuote.eq_def]
  dsimp only
  rw [if_neg hq, if_neg hb]

theorem jsonUnescape_flatMap :
    ∀ l : List Char,
      jsonUnescapeUntilQuote (l.flatMap jsonEscapeChar ++ ['"']) = some (l, []) := by
  intro l
  induction l with
  | nil => simp [jsonU_quote]
  | cons c cs ih =>
    rw [List.flatMap_cons, List.append_assoc]
    by_cases h1 : c = '"'
    · have hec : jsonEscapeChar c = ['\\', '"'] := by rw [jsonEscapeChar, if_pos h1]
      rw [hec, List.cons_append, List.cons_append, List.nil_append,
        jsonU_named (by decide) _, ih, h1]
      rfl
    · by_cases h2 : c = '\\'
      · have hec : jsonEscapeChar c = ['\\', '\\'] := by
          rw [jsonEscapeChar, if_neg h1, if_pos h2]
        rw [hec, List.cons_append, List.cons_append, List.nil_append,
          jsonU_named (by decide) _, ih, h2]
        rfl
      · by_cases h3 : c = '\n'
        · have hec : jsonEscapeChar c = ['\\', 'n'] := by
            rw [jsonEscapeChar, if_neg h1, if_neg h2, if_pos h3]
          rw [hec, List.cons_append, List.cons_append, List.nil_append,
            jsonU_named (by decide) _, ih, h3]
          rfl
        · by_cases h4 : c = '\r'
          · have hec : jsonEscapeChar c = ['\\', 'r'] := by
              rw [jsonEscapeChar, if_neg h1, if_neg h2, if_neg h3, if_pos h4]
            rw [hec, List.cons_append, List.cons_append, List.nil_append,
              jsonU_named (by decide) _, ih, h4]
            rfl
          · by_cases h5 : c = '\t'
            · have hec : jsonEscapeChar c = ['\\', 't'] := by
                rw [jsonEscapeChar, if_neg h1, if_neg h2, if_neg h3, if_neg h4, if_pos h5]
              rw [hec, List.cons_append, List.cons_append, List.nil_append,
                jsonU_named (by decide) _, ih, h5]
              rfl
            · by_cases h6 : c = '\x08'
              · have hec : jsonEscapeChar c = ['\\', 'b'] := by
                  rw [jsonEscapeChar, if_neg h1, if_neg h2, if_neg h3, if_neg h4, if_neg h5,
                    if_pos h6]
                rw [hec, List.cons_append, List.cons_append, List.nil_append,
                  jsonU_named (by decide) _, ih, h6]
                rfl
              · by_cases h7 : c = '\x0c'
                · have hec : jsonEscapeChar c = ['\\', 'f'] := by
                    rw [jsonEscapeChar, if_neg h1, if_neg h2, if_neg h3, if_neg h4, if_neg h5,
                      if_neg h6, if_pos h7]
                  rw [hec, List.cons_append, List.cons_append, List.nil_append,
                    jsonU_named (by decide) _, ih, h7]
                  rfl
                · by_cases h8 : c.toNat < 32
                  · have hec : jsonEscapeChar c =
                        ['\\', 'u', '0', '0', hexDigit (c.toNat / 16), hexDigit (c.toNat % 16)] := by
                      rw [jsonEscapeChar, if_neg h1, if_neg h2, if_neg h3, if_neg h4, if_neg h5,
                        if_neg h6, if_neg h7, if_pos h8]
                    rw [hec]
                    simp only [List.cons_append, List.nil_append]
                    rw [jsonU_u, ih]
                    have hhi : hexVal (hexDigit (c.toNat / 16)) = c.toNat / 16 :=
                      hexVal_hexDigit _ (by omega)
                    have hlo : hexVal (hexDigit (c.toNat % 16)) = c.toNat % 16 :=
                      hexVal_hexDigit _ (by omega)
                    rw [hhi, hlo, show hexVal '0' = 0 from by decide]
                    rw [show (0 : Nat) * 4096 + 0 * 256 + c.toNat / 16 * 16 + c.toNat % 16 =
                      c.toNat from by omega]
                    rw [Char.ofNat_toNat]
                    rfl
                  · have hec : jsonEscapeChar c = [c] := by
                      rw [jsonEscapeChar, if_neg h1, if_neg h2, if_neg h3, if_neg h4, if_neg h5,
                        if_neg h6, if_neg h7, if_neg h8]
                    rw [hec, List.cons_append, List.nil_append, jsonU_plain h1 h2, ih]
                    rfl

theorem jsonDecode_encode (s : String) : jsonDecodeString (jsonEncodeString s) = some s := by
  unfold jsonDecodeString
  rw [show (jsonEncodeString s).data = '"' :: (s.data.flatMap jsonEscapeChar ++ ['"']) from rfl]
  rw [List.head?_cons, if_pos rfl, List.tail_cons, jsonUnescape_flatMap s.data,
    Option.some_bind]
  rfl

theorem newline_not_mem_jsonEscapeChar (c : Char) : '\n' ∉ jsonEscapeChar c := by
  unfold jsonEscapeChar
  split_ifs with h1 h2 h3 h4 h5 h6 h7 h8
  · decide
  · decide
  · decide
  · decide
  · decide
  · decide
  · decide
  · intro hmem
    simp only [List.mem_cons, List.not_mem_nil, or_false] at hmem
    rcases hmem with h | h | h | h | h | h
    · exact absurd h (by decide)
    · exact absurd h (by decide)
    · exact absurd h (by decide)
    · exact absurd h (by decide)
    · exact absurd (h ▸ hexDigit_mem (c.toNat / 16)) (by decide)
    · exact absurd (h ▸ hexDigit_mem (c.toNat % 16)) (by decide)
  · intro hmem
    simp only [List.mem_singleton] at hmem
    exact h3 hmem.symm

theorem contains_iff_mem {l : List Char} {a : Char} : l.contains a = true ↔ a ∈ l := by
  simp [List.contains, List.elem_iff]

theorem head_mem_of_head? {l : List Char} {a : Char} (h : l.head? = some a) : a ∈ l := by
  cases l with
  | nil => cases h
  | cons x xs =>
    rw [List.head?_cons] at h
    cases h
    exact List.mem_cons_self ..

/-- Parsing back an `earki.js`-escaped field recovers the field exactly:
the wrap condition and quote doubling are correct. -/
theorem csvEscape_roundtrip (s : String) : csvParseField (csvEscape (some s)) = some s := by
  unfold csvEscape
  dsimp only
  by_cases hq : needsQuote s.data = true
  · rw [if_pos hq]
    unfold csvParseField
    rw [show (⟨'"' :: (escQuotes s.data ++ ['"'])⟩ : String).data =
      '"' :: (escQuotes s.data ++ ['"']) from rfl]
    rw [List.head?_cons, if_pos rfl, List.tail_cons, csvUnquote_escQuotes]
    rfl
  · rw [if_neg hq]
    have hmem : (',' ∉ s.data ∧ '"' ∉ s.data) ∧ '\n' ∉ s.data := by
      unfold needsQuote at hq
      simpa only [Bool.or_eq_true, not_or, contains_iff_mem] using hq
    unfold csvParseField
    have h1 : ¬ (s.data.head? = some '"') := fun h => hmem.1.2 (head_mem_of_head? h)
    have h2 : ¬ ((s.data.contains '"' || s.data.contains ',' || s.data.contains '\n') = true) := by
      simp only [Bool.or_eq_true, not_or, contains_iff_mem]
      exact ⟨⟨hmem.1.2, hmem.1.1⟩, hmem.2⟩
    rw [if_neg h1, if_neg h2]

/-- `earki.js` `csvEscape` preserves a newline inside the (quoted)
field. -/
theorem csvEscape_preserves_newline {s : String} (h : '\n' ∈ s.data) :
    '\n' ∈ (csvEscape (some s)).data := by
  have hq : needsQuote s.data = true := by
    unfold needsQuote
    simp only [Bool.or_eq_true]
    exact Or.inr (contains_iff_mem.mpr h)
  unfold csvEscape
  dsimp only
  rw [if_pos hq]
  show '\n' ∈ '"' :: (escQuotes s.data ++ ['"'])
  exact List.mem_cons_of_mem _ (List.mem_append_left _ (mem_escQuotes_of_mem h))

/-- The jokes/fact-watch `toCsvField` output never contains a newline, and
parsing it back recovers exactly the collapsed-and-trimmed value. -/
theorem toCsvField_no_newline_roundtrip (v : String) :
    '\n' ∉ (toCsvField (some v)).data ∧
    csvParseField (toCsvField (some v)) = some ⟨trimJs (collapseNewlines v.data)⟩ := by
  unfold toCsvField
  dsimp only
  have hnl : '\n' ∉ trimJs (collapseNewlines v.data) := fun h =>
    collapseNewlines_no_newline v.data (mem_of_mem_trimJs h)
  by_cases hc : (trimJs (collapseNewlines v.data)).contains '"' = true ∨
      (trimJs (collapseNewlines v.data)).contains ',' = true
  · rw [if_pos (by simpa [Bool.or_eq_true] using hc)]
    constructor
    · intro h
      rw [show (⟨'"' :: (escQuotes (trimJs (collapseNewlines v.data)) ++ ['"'])⟩ : String).data =
        '"' :: (escQuotes (trimJs (collapseNewlines v.data)) ++ ['"']) from rfl] at h
      rcases List.mem_cons.mp h with h | h
      · exact absurd h (by decide)
      · rcases List.mem_append.mp h with h | h
        · rcases mem_of_mem_escQuotes h with h | h
          · exact absurd h (by decide)
          · exact hnl h
        · exact absurd h (by decide)
    · unfold csvParseField
      rw [show (⟨'"' :: (escQuotes (trimJs (collapseNewlines v.data)) ++ ['"'])⟩ : String).data =
        '"' :: (escQuotes (trimJs (collapseNewlines v.data)) ++ ['"']) from rfl]
      rw [List.head?_cons, if_pos rfl, List.tail_cons, csvUnquote_escQuotes]
      rfl
  · rw [if_neg (by simpa [Bool.or_eq_true] using hc)]
    push_neg at hc
    constructor
    · exact hnl
    · unfold csvParseField
      have h1 : ¬ ((⟨trimJs (collapseNewlines v.data)⟩ : String).data.head? = some '"') := by
        intro h
        exact hc.1 (contains_iff_mem.mpr (head_mem_of_head? h))
      have h2 : ¬ (((⟨trimJs (collapseNewlines v.data)⟩ : String).data.contains '"' ||
          (⟨trimJs (collapseNewlines v.data)⟩ : String).data.contains ',' ||
          (⟨trimJs (collapseNewlines v.data)⟩ : String).data.contains '\n') = true) := by
        simp only [Bool.or_eq_true, not_or, contains_iff_mem]
        exact ⟨⟨fun h => hc.1 (contains_iff_mem.mpr h), fun h => hc.2 (contains_iff_mem.mpr h)⟩,
          fun h => hnl h⟩
      rw [if_neg h1, if_neg h2]

theorem newline_not_mem_jsonEncodeString (s : String) :
    '\n' ∉ (jsonEncodeString s).data := by
  unfold jsonEncodeString
  intro h
  simp only [List.mem_cons, List.mem_append, List.mem_singleton] at h
  rcases h with h | h | h
  · exact absurd h (by decide)
  · rw [List.mem_flatMap] at h
    obtain ⟨c, _, hc⟩ := h
    exact newline_not_mem_jsonEscapeChar c hc
  · exact absurd h (by decide)

/-- C3 counterexample: `earki.js`'s tabular encoder `csvEscape` does not
collapse newlines in a field value — it quotes the field and keeps the raw
newline — so "collapses newlines inside headline/content to spaces before
tabular encoding" is false for every record appended by `earki.js`
(here the value `"a\nb"`); the jokes/fact-watch encoder does collapse. -/
theorem C3_counterexample :
    csvEscape (some "a\nb") = "\"a\nb\"" ∧
    '\n' ∈ (csvEscape (some "a\nb")).data ∧
    toCsvField (some "a\nb") = "a b" := by
  decide

/-- C3 amended: null/undefined fields become empty in both tabular
encoders; `earki.js`'s `csvEscape` wraps any value containing a quote,
comma, or newline in double quotes with inner quotes doubled (a standard
parser recovers the value exactly, newlines preserved inside the quoted
field); the jokes/fact-watch `toCsvField` first collapses newlines to
spaces and trims (in every field, so its output never contains a newline)
and then wraps on quote/comma, a standard parser recovering the
collapsed-and-trimmed value; the structured (JSONL) string encoding
round-trips, preserving newlines verbatim. -/
theorem C3_amended (s v : String) :
    (csvEscape none = "" ∧ toCsvField none = "") ∧
    csvParseField (csvEscape (some s)) = some s ∧
    ('\n' ∈ s.data → '\n' ∈ (csvEscape (some s)).data) ∧
    '\n' ∉ (toCsvField (some v)).data ∧
    csvParseField (toCsvField (some v)) = some ⟨trimJs (collapseNewlines v.data)⟩ ∧
    jsonDecodeString (jsonEncodeString s) = some s :=
  ⟨⟨rfl, rfl⟩, csvEscape_roundtrip s, fun h => csvEscape_preserves_newline h,
    (toCsvField_no_newline_roundtrip v).1, (toCsvField_no_newline_roundtrip v).2,
    jsonDecode_encode s⟩

/-- Witness for C3 amended at the newline-containing value `"a\nb"`. -/
theorem C3_witness :
    '\n' ∈ ("a\nb" : String).data ∧ '\n' ∈ (csvEscape (some "a\nb")).data :=
  ⟨by decide, (C3_amended "a\nb" "v").2.2.1 (by decide)⟩

/-! ## Lemmas about the sink -/

theorem digitChar_ne_newline (n : Nat) : Nat.digitChar n ≠ '\n' := by
  by_cases h : n < 17
  · interval_cases n <;> decide
  · have hne : ∀ m, m < 17 → ¬ n = m := fun m hm he => h (he ▸ hm)
    have h16 : Nat.digitChar n = '*' := by
      unfold Nat.digitChar
      rw [if_neg (hne 0 (by decide)), if_neg (hne 1 (by decide)),
        if_neg (hne 2 (by decide)), if_neg (hne 3 (by decide)),
        if_neg (hne 4 (by decide)), if_neg (hne 5 (by decide)),
        if_neg (hne 6 (by decide)), if_neg (hne 7 (by decide)),
        if_neg (hne 8 (by decide)), if_neg (hne 9 (by decide)),
        if_neg (hne 10 (by decide)), if_neg (hne 11 (by decide)),
        if_neg (hne 12 (by decide)), if_neg (hne 13 (by decide)),
        if_neg (hne 14 (by decide)), if_neg (hne 15 (by decide))]
    rw [h16]
    decide

theorem toDigitsCore_no_newline :
    ∀ (fuel n : Nat) (ds : List Char), '\n' ∉ ds → '\n' ∉ Nat.toDigitsCore 10 fuel n ds := by
  intro fuel
  induction fuel with
  | zero => intro n ds h; simpa [Nat.toDigitsCore] using h
  | succ f ih =>
    intro n ds h
    rw [Nat.toDigitsCore.eq_def]
    dsimp only
    have hd : '\n' ∉ Nat.digitChar (n % 10) :: ds := by
      simp only [List.mem_cons, not_or]
      exact ⟨fun he => digitChar_ne_newline _ he.symm, h⟩
    by_cases hz : n / 10 = 0
    · rw [if_pos hz]; exact hd
    · rw [if_neg hz]; exact ih _ _ hd

theorem toString_nat_no_newline (n : Nat) : '\n' ∉ (toString n).data := by
  show '\n' ∉ (Nat.repr n).data
  unfold Nat.repr
  rw [show ((Nat.toDigits 10 n).asString).data = Nat.toDigits 10 n from rfl]
  unfold Nat.toDigits
  exact toDigitsCore_no_newline _ _ _ (by simp)

theorem csvEscape_no_newline {o : Option String} (h : optNoNewline o = true) :
    '\n' ∉ (csvEscape o).data := by
  cases o with
  | none => simp [csvEscape]
  | some s =>
    have hs : '\n' ∉ s.data := by
      simp only [optNoNewline, Bool.not_eq_true'] at h
      intro hmem
      rw [contains_iff_mem.mpr hmem] at h
      cases h
    unfold csvEscape
    dsimp only
    by_cases hq : needsQuote s.data = true
    · rw [if_pos hq]
      intro hmem
      rw [show (⟨'"' :: (escQuotes s.data ++ ['"'])⟩ : String).data =
        '"' :: (escQuotes s.data ++ ['"']) from rfl] at hmem
      rcases List.mem_cons.mp hmem with h1 | h1
      · exact absurd h1 (by decide)
      · rcases List.mem_append.mp h1 with h1 | h1
        · rcases mem_of_mem_escQuotes h1 with h1 | h1
          · exact absurd h1 (by decide)
          · exact hs h1
        · exact absurd h1 (by decide)
    · rw [if_neg hq]
      exact hs

theorem toCsvField_no_newline : ∀ o : Option String, '\n' ∉ (toCsvField o).data
  | none => by simp [toCsvField]
  | some v => (toCsvField_no_newline_roundtrip v).1

theorem mem_joinComma {c : Char} :
    ∀ {fs : List (List Char)}, c ∈ joinComma fs → c = ',' ∨ ∃ f ∈ fs, c ∈ f
  | [], h => by simp [joinComma] at h
  | [f], h => Or.inr ⟨f, by simp, h⟩
  | f :: g :: fs, h => by
    rw [show joinComma (f :: g :: fs) = f ++ ',' :: joinComma (g :: fs) from rfl] at h
    rcases List.mem_append.mp h with h | h
    · exact Or.inr ⟨f, by simp, h⟩
    · rcases List.mem_cons.mp h with h | h
      · exact Or.inl h
      · rcases mem_joinComma h with h | ⟨f', hf', hc⟩
        · exact Or.inl h
        · exact Or.inr ⟨f', List.mem_cons_of_mem _ hf', hc⟩

theorem no_newline_append {a b : String} (ha : '\n' ∉ a.data) (hb : '\n' ∉ b.data) :
    '\n' ∉ (a ++ b).data := by
  rw [String.data_append]
  intro h
  rcases List.mem_append.mp h with h | h
  · exact ha h
  · exact hb h

theorem jsonOptStr_no_newline : ∀ o : Option String, '\n' ∉ (jsonOptStr o).data
  | none => by decide
  | some s => newline_not_mem_jsonEncodeString s

theorem articleJsonLine_no_newline (r : ArticleRec) : '\n' ∉ (articleJsonLine r).data := by
  unfold articleJsonLine
  repeat' apply no_newline_append
  all_goals first
    | decide
    | exact newline_not_mem_jsonEncodeString _
    | exact jsonOptStr_no_newline _
    | exact toString_nat_no_newline _

theorem earkiJsonLine_no_newline (r : EarkiRow) : '\n' ∉ (earkiJsonLine r).data := by
  unfold earkiJsonLine
  repeat' apply no_newline_append
  all_goals first
    | decide
    | exact newline_not_mem_jsonEncodeString _
    | exact jsonOptStr_no_newline _
    | exact toString_nat_no_newline _

theorem articleCsvLine_count (r : ArticleRec) : (articleCsvLine r).data.count '\n' = 1 := by
  rw [show (articleCsvLine r).data =
    joinComma [(toCsvField (some r.article_id)).data, (toCsvField (some r.publisher)).data,
      (toCsvField (some r.source)).data, (toCsvField (some r.category)).data,
      (toCsvField (some r.published_at)).data, (toCsvField (some r.headline)).data,
      (toCsvField (some (r.content.getD ""))).data,
      (toCsvField (some (toString r.label))).data] ++ ['\n'] from rfl]
  rw [List.count_append]
  have h0 : (joinComma [(toCsvField (some r.article_id)).data, (toCsvField (some r.publisher)).data,
      (toCsvField (some r.source)).data, (toCsvField (some r.category)).data,
      (toCsvField (some r.published_at)).data, (toCsvField (some r.headline)).data,
      (toCsvField (some (r.content.getD ""))).data,
      (toCsvField (some (toString r.label))).data]).count '\n' = 0 := by
    rw [List.count_eq_zero]
    intro hmem
    rcases mem_joinComma hmem with h | ⟨f, hf, hc⟩
    · exact absurd h (by decide)
    · simp only [List.mem_cons, List.not_mem_nil, or_false] at hf
      rcases hf with rfl | rfl | rfl | rfl | rfl | rfl | rfl | rfl <;>
        exact toCsvField_no_newline _ hc
  rw [h0]
  decide

theorem earkiCsvLine_count {r : EarkiRow} (h : rowNoNewline r = true) :
    (earkiCsvLine r).data.count '\n' = 1 := by
  simp only [rowNoNewline, Bool.and_eq_true] at h
  obtain ⟨⟨⟨⟨⟨⟨h1, h2⟩, h3⟩, h4⟩, h5⟩, h6⟩, h7⟩ := h
  rw [show (earkiCsvLine r).data =
    joinComma [(csvEscape (some r.article_id)).data, (csvEscape r.publisher).data,
      (csvEscape (some r.source)).data, (csvEscape r.category).data,
      (csvEscape r.published_at).data, (csvEscape (some r.headline)).data,
      (csvEscape r.content).data, (toString r.label).data] ++ ['\n'] from rfl]
  rw [List.count_append]
  have h0 : (joinComma [(csvEscape (some r.article_id)).data, (csvEscape r.publisher).data,
      (csvEscape (some r.source)).data, (csvEscape r.category).data,
      (csvEscape r.published_at).data, (csvEscape (some r.headline)).data,
      (csvEscape r.content).data, (toString r.label).data]).count '\n' = 0 := by
    rw [List.count_eq_zero]
    intro hmem
    rcases mem_joinComma hmem with hx | ⟨f, hf, hc⟩
    · exact absurd hx (by decide)
    · simp only [List.mem_cons, List.not_mem_nil, or_false] at hf
      rcases hf with rfl | rfl | rfl | rfl | rfl | rfl | rfl | rfl
      · exact csvEscape_no_newline (o := some r.article_id) (by simpa [optNoNewline] using h1) hc
      · exact csvEscape_no_newline h2 hc
      · exact csvEscape_no_newline (o := some r.source) (by simpa [optNoNewline] using h3) hc
      · exact csvEscape_no_newline h4 hc
      · exact csvEscape_no_newline h5 hc
      · exact csvEscape_no_newline (o := some r.headline) (by simpa [optNoNewline] using h6) hc
      · exact csvEscape_no_newline h7 hc
      · exact toString_nat_no_newline _ hc
  rw [h0]
  decide

theorem writeRecord_jsonl_count (fs : FSState) (r : ArticleRec) :
    lineCount ((writeRecord fs r).jsonl.getD "") = lineCount (fs.jsonl.getD "") + 1 := by
  show lineCount (fs.jsonl.getD "" ++ (articleJsonLine r ++ "\n")) = _
  unfold lineCount
  rw [String.data_append, List.count_append, String.data_append, List.count_append]
  rw [List.count_eq_zero.mpr (articleJsonLine_no_newline r)]
  rfl

theorem writeRecord_csv_count (fs : FSState) (r : ArticleRec) :
    lineCount ((writeRecord fs r).csv.getD "") = lineCount (fs.csv.getD "") + 1 := by
  show lineCount (fs.csv.getD "" ++ articleCsvLine r) = _
  unfold lineCount
  rw [String.data_append, List.count_append, articleCsvLine_count]

theorem appendRow_jsonl_count (fs : FSState) (r : EarkiRow) :
    lineCount ((appendRow fs r).jsonl.getD "") = lineCount (fs.jsonl.getD "") + 1 := by
  show lineCount (fs.jsonl.getD "" ++ (earkiJsonLine r ++ "\n")) = _
  unfold lineCount
  rw [String.data_append, List.count_append, String.data_append, List.count_append]
  rw [List.count_eq_zero.mpr (earkiJsonLine_no_newline r)]
  rfl

theorem appendRow_csv_count {r : EarkiRow} (h : rowNoNewline r = true) (fs : FSState) :
    lineCount ((appendRow fs r).csv.getD "") = lineCount (fs.csv.getD "") + 1 := by
  show lineCount (fs.csv.getD "" ++ earkiCsvLine r) = _
  unfold lineCount
  rw [String.data_append, List.count_append, earkiCsvLine_count h]

theorem writeRecord_fold_counts :
    ∀ (recs : List ArticleRec) (fs : FSState),
      lineCount ((recs.foldl writeRecord fs).jsonl.getD "") =
        lineCount (fs.jsonl.getD "") + recs.length ∧
      lineCount ((recs.foldl writeRecord fs).csv.getD "") =
        lineCount (fs.csv.getD "") + recs.length := by
  intro recs
  induction recs with
  | nil => intro fs; simp
  | cons r rs ih =>
    intro fs
    rw [List.foldl_cons]
    have h := ih (writeRecord fs r)
    rw [h.1, h.2, writeRecord_jsonl_count, writeRecord_csv_count]
    constructor <;> · simp only [List.length_cons]; omega

theorem appendRow_fold_counts :
    ∀ (rows : List EarkiRow), (∀ r ∈ rows, rowNoNewline r = true) → ∀ fs : FSState,
      lineCount ((rows.foldl appendRow fs).jsonl.getD "") =
        lineCount (fs.jsonl.getD "") + rows.length ∧
      lineCount ((rows.foldl appendRow fs).csv.getD "") =
        lineCount (fs.csv.getD "") + rows.length := by
  intro rows
  induction rows with
  | nil => intro _ fs; simp
  | cons r rs ih =>
    intro hall fs
    rw [List.foldl_cons]
    have h := ih (fun x hx => hall x (List.mem_cons_of_mem _ hx)) (appendRow fs r)
    rw [h.1, h.2, appendRow_jsonl_count, appendRow_csv_count (hall r (List.mem_cons_self ..))]
    constructor <;> · simp only [List.length_cons]; omega

/-- C4 counterexample: after `earki.js`'s `ensureOutputs`, the structured
(JSONL) file does not exist — a pre-existing one is deleted and a missing
one is not created — so "both output files exist before any record is
appended" is false for `earki.js`. -/
theorem C4_counterexample :
    (ensureOutputs ⟨none, none⟩).jsonl = none ∧
    (ensureOutputs ⟨some "x", some "y"⟩).jsonl = none := ⟨rfl, rfl⟩

/-- C4 amended: after the jokes/fact-watch `ensureOut`, both files exist,
a fresh tabular file holds exactly the header row and a fresh structured
file is empty; after `earki.js`'s `ensureOutputs`, the tabular file exists
(fresh: BOM plus header; pre-existing: kept unchanged) but the structured
file does not exist until the first append deletes nothing and creates
it.  Appends never truncate: each append maps file contents `c` to
`c ++ line` in both formats. -/
theorem C4_amended (fs : FSState) (r : ArticleRec) (row : EarkiRow) :
    ((ensureOut fs).csv.isSome ∧ (ensureOut fs).jsonl.isSome) ∧
    (fs.csv = none → (ensureOut fs).csv = some headerLine) ∧
    (fs.jsonl = none → (ensureOut fs).jsonl = some "") ∧
    (fs.csv = none → (ensureOutputs fs).csv = some ("\uFEFF" ++ headerLine)) ∧
    (∀ c, fs.csv = some c → (ensureOutputs fs).csv = some c) ∧
    (ensureOutputs fs).jsonl = none ∧
    (writeRecord fs r).csv = some (fs.csv.getD "" ++ articleCsvLine r) ∧
    (writeRecord fs r).jsonl = some (fs.jsonl.getD "" ++ (articleJsonLine r ++ "\n")) ∧
    (appendRow fs row).csv = some (fs.csv.getD "" ++ earkiCsvLine row) ∧
    (appendRow fs row).jsonl = some (fs.jsonl.getD "" ++ (earkiJsonLine row ++ "\n")) := by
  refine ⟨⟨?_, ?_⟩, ?_, ?_, ?_, ?_, rfl, rfl, rfl, rfl, rfl⟩
  · cases h : fs.csv <;> simp [ensureOut, h]
  · cases h : fs.jsonl <;> simp [ensureOut, h]
  · intro h; simp [ensureOut, h]
  · intro h; simp [ensureOut, h]
  · intro h; simp [ensureOutputs, h]
  · intro c h; simp [ensureOutputs, h]

/-- Witness for C4 amended on the empty file system. -/
theorem C4_witness :
    (ensureOut ⟨none, none⟩).csv = some headerLine ∧
    (ensureOutputs ⟨none, none⟩).jsonl = none :=
  ⟨(C4_amended ⟨none, none⟩ ⟨"i", "p", "s", "c", "d", "h", none, 0⟩
      ⟨"i", none, "s", none, none, "h", none, 0⟩).2.1 rfl,
    (C4_amended ⟨none, none⟩ ⟨"i", "p", "s", "c", "d", "h", none, 0⟩
      ⟨"i", none, "s", none, none, "h", none, 0⟩).2.2.2.2.2.1⟩

/-- C5 counterexample: in `earki.js`, one append of a record whose content
holds a newline yields a tabular file of 3 physical lines, not N+1 = 2 —
"exactly N+1 lines regardless of record content" fails. -/
theorem C5_counterexample :
    lineCount ((appendRow (ensureOutputs ⟨none, none⟩)
      ⟨"1", none, "u", none, none, "h", some "a\nb", 0⟩).csv.getD "") = 3 ∧
    (3 : Nat) ≠ 1 + 1 := by
  constructor
  · decide
  · decide

/-- C5 amended: starting from no files, N appends produce exactly N
newline-terminated lines in the structured file and N+1 (header included)
in the tabular file — unconditionally for the jokes/fact-watch sink
(whose field encoder strips newlines), and for `earki.js` under the
assumption that no field value contains a newline (otherwise the quoted
field spans several physical lines). -/
theorem C5_amended (recs : List ArticleRec) (rows : List EarkiRow)
    (h : ∀ r ∈ rows, rowNoNewline r = true) :
    (lineCount ((recs.foldl writeRecord (ensureOut ⟨none, none⟩)).jsonl.getD "") =
        recs.length ∧
      lineCount ((recs.foldl writeRecord (ensureOut ⟨none, none⟩)).csv.getD "") =
        recs.length + 1) ∧
    (lineCount ((rows.foldl appendRow (ensureOutputs ⟨none, none⟩)).jsonl.getD "") =
        rows.length ∧
      lineCount ((rows.foldl appendRow (ensureOutputs ⟨none, none⟩)).csv.getD "") =
        rows.length + 1) := by
  have h1 := writeRecord_fold_counts recs (ensureOut ⟨none, none⟩)
  have h2 := appendRow_fold_counts rows h (ensureOutputs ⟨none, none⟩)
  have e1 : lineCount ((ensureOut (⟨none, none⟩ : FSState)).jsonl.getD "") = 0 := by decide
  have e2 : lineCount ((ensureOut (⟨none, none⟩ : FSState)).csv.getD "") = 1 := by decide
  have e3 : lineCount ((ensureOutputs (⟨none, none⟩ : FSState)).jsonl.getD "") = 0 := by decide
  have e4 : lineCount ((ensureOutputs (⟨none, none⟩ : FSState)).csv.getD "") = 1 := by decide
  rw [e1, e2] at h1
  rw [e3, e4] at h2
  refine ⟨⟨?_, ?_⟩, ⟨?_, ?_⟩⟩ <;> omega

/-- Witness for C5 amended at one record for each sink. -/
theorem C5_witness :
    lineCount (([(⟨"i", "p", "s", "c", "d", "h", none, 0⟩ : ArticleRec)].foldl writeRecord
      (ensureOut ⟨none, none⟩)).csv.getD "") = 1 + 1 ∧
    lineCount (([(⟨"i", none, "s", none, none, "h", none, 0⟩ : EarkiRow)].foldl appendRow
      (ensureOutputs ⟨none, none⟩)).jsonl.getD "") = 1 := by
  have h := C5_amended [(⟨"i", "p", "s", "c", "d", "h", none, 0⟩ : ArticleRec)]
    [(⟨"i", none, "s", none, none, "h", none, 0⟩ : EarkiRow)] (by decide)
  exact ⟨h.1.2, h.2.1⟩

/-! ## Lemmas about dates and labels -/

theorem toNat_ofNat_valid {n : Nat} (h : Nat.isValidChar n) : (Char.ofNat n).toNat = n := by
  unfold Char.ofNat
  rw [dif_pos h]
  rfl

theorem asciiLowerChar_idem (c : Char) : asciiLowerChar (asciiLowerChar c) = asciiLowerChar c := by
  by_cases h : 65 ≤ c.toNat ∧ c.toNat ≤ 90
  · have h1 : asciiLowerChar c = Char.ofNat (c.toNat + 32) := by
      unfold asciiLowerChar
      rw [if_pos h]
    have ht : (Char.ofNat (c.toNat + 32)).toNat = c.toNat + 32 :=
      toNat_ofNat_valid (Or.inl (by omega))
    rw [h1]
    unfold asciiLowerChar
    rw [if_neg (by rw [ht]; omega)]
  · have h1 : asciiLowerChar c = c := by
      unfold asciiLowerChar
      rw [if_neg h]
    rw [h1, h1]

theorem asciiLower_idem (s : String) : asciiLower (asciiLower s) = asciiLower s := by
  unfold asciiLower
  apply String.ext
  rw [show (⟨(⟨s.data.map asciiLowerChar⟩ : String).data.map asciiLowerChar⟩ : String).data =
    (s.data.map asciiLowerChar).map asciiLowerChar from rfl]
  rw [List.map_map]
  exact List.map_congr_left fun c _ => asciiLowerChar_idem c

/-- C8 counterexample: in `earki.js` an unparseable raw date yields a
`null` `published_at`, not the raw string; and in the jokes scraper a
parseable but non-UTC-normal raw date is stored verbatim, not its
ISO-8601 UTC normalization — both directions of "ISO when normalizable,
raw otherwise" fail on the code. -/
theorem C8_counterexample :
    normalizeDateISO (some "not-a-date") = none ∧
    (earkiRowOf ⟨"https://www.jachai.org/x/post-1/", "h", none, some "not-a-date"⟩
      none).published_at = none ∧
    (buildRecord "u" (some "2023-08-22T14:38:19.000+06:00") none none).published_at =
      "2023-08-22T14:38:19.000+06:00" ∧
    normalizeDateISO (some "2023-08-22T14:38:19.000+06:00") =
      some "2023-08-22T08:38:19.000Z" := by
  refine ⟨by decide, by decide, by decide, by decide⟩

/-- C8 amended: `earki.js` stores the ISO-8601 UTC normalization when the
raw date parses, and `null` (not the raw string) otherwise; the jokes,
satire and fact-watch scrapers always store the raw string (with an
empty-string default), never normalizing. -/
theorem C8_amended (raw : String) (t : Int) (hne : raw ≠ "") :
    (normalizeDateISO none = none ∧ normalizeDateISO (some "") = none) ∧
    (jsDateParse raw = none → normalizeDateISO (some raw) = none) ∧
    (jsDateParse raw = some t → normalizeDateISO (some raw) = some (toISOString t)) ∧
    (∀ (it : JachaiItem) (content : Option String),
      (earkiRowOf it content).published_at = normalizeDateISO it.published_at_raw) ∧
    (∀ url pa h c, (buildRecord url pa h c).published_at = pa.getD "") ∧
    (∀ url pa h c, (satireRecord url pa h c).published_at = pa) ∧
    (∀ url h pa c sch, (scrapeSinglePostRecord url h pa c sch).published_at = pa) := by
  refine ⟨⟨rfl, rfl⟩, ?_, ?_, fun _ _ => rfl, fun _ _ _ _ => rfl, fun _ _ _ _ => rfl,
    fun _ _ _ _ _ => rfl⟩
  · intro h
    show (if raw = "" then none else (jsDateParse raw).map toISOString) = none
    rw [if_neg hne, h]
    rfl
  · intro h
    show (if raw = "" then none else (jsDateParse raw).map toISOString) = some (toISOString t)
    rw [if_neg hne, h]
    rfl

/-- Witness for C8 amended: a parseable UTC date normalizes to itself. -/
theorem C8_witness :
    jsDateParse "2023-08-22T14:38:19.000Z" = some 1692715099000 ∧
    normalizeDateISO (some "2023-08-22T14:38:19.000Z") = some (toISOString 1692715099000) ∧
    toISOString 1692715099000 = "2023-08-22T14:38:19.000Z" :=
  ⟨by decide,
    (C8_amended "2023-08-22T14:38:19.000Z" 1692715099000 (by decide)).2.2.1 (by decide),
    by decide⟩

/-- C9: in the fact-watch scraper a persisted record's label is 0 exactly
when the lower-cased text of the page's fact-check schema block contains
the substring "false", and 1 otherwise; the jokes, satire and jachai
scrapers assign label 0 to every record. -/
theorem C9_label_rule (schemaRaw : String) :
    (∀ url headline pa content,
      ((scrapeSinglePostRecord url headline pa content schemaRaw).label = 0 ↔
        containsLit "false".data (asciiLower schemaRaw).data = true)) ∧
    (∀ url pa h c, (buildRecord url pa h c).label = 0) ∧
    (∀ url pa h c, (satireRecord url pa h c).label = 0) ∧
    (∀ it c, (earkiRowOf it c).label = 0) := by
  refine ⟨?_, fun _ _ _ _ => rfl, fun _ _ _ _ => rfl, fun _ _ => rfl⟩
  intro url headline pa content
  show (if regexTestFalseI (asciiLower schemaRaw) then 0 else 1) = 0 ↔ _
  have hr : regexTestFalseI (asciiLower schemaRaw) =
      containsLit "false".data (asciiLower schemaRaw).data := by
    unfold regexTestFalseI
    rw [asciiLower_idem]
  rw [hr]
  cases hb : containsLit "false".data (asciiLower schemaRaw).data
  · rw [if_neg (by simp [hb])]
    simp
  · rw [if_pos (by simp)]
    simp

/-! ## Lemmas about the incremental loop -/

theorem collectLinkObjs_snd {hrefs : List String} {c : String × String}
    (h : c ∈ collectLinkObjs hrefs) : c.2 = jokesIdOrEmpty c.1 := by
  unfold collectLinkObjs at h
  simp only [List.mem_map] at h
  obtain ⟨url, _, rfl⟩ := h
  rfl

theorem mem_dispatched {f : String → Bool} {seen : List String}
    {cards : List (String × String)} {u : String}
    (h : u ∈ (processNewCards f seen cards).1) :
    ∃ c, c ∈ cards.filter (fun c => c.2 ≠ "" ∧ c.2 ∉ seen) ∧ c.1 = u := by
  unfold processNewCards at h
  simp only [List.mem_map] at h
  obtain ⟨c, hc, rfl⟩ := h
  exact ⟨c, hc, rfl⟩

theorem seen_subset_processNewCards (f : String → Bool) (seen : List String)
    (cards : List (String × String)) : seen ⊆ (processNewCards f seen cards).2.2 :=
  fun _ hx => List.mem_append_left _ hx

theorem persisted_subset_dispatched (f : String → Bool) (seen : List String)
    (cards : List (String × String)) :
    (processNewCards f seen cards).2.1 ⊆ (processNewCards f seen cards).1 :=
  List.map_subset _ (List.filter_sublist _).subset

theorem dispatched_id_mem_seen2 {f : String → Bool} (hf : ∀ u, f u = true)
    {seen : List String} {cards : List (String × String)} {u : String}
    (hcards : ∀ c ∈ cards, c.2 = jokesIdOrEmpty c.1)
    (h : u ∈ (processNewCards f seen cards).1) :
    jokesIdOrEmpty u ∈ (processNewCards f seen cards).2.2 := by
  obtain ⟨c, hc, rfl⟩ := mem_dispatched h
  apply List.mem_append_right
  have hck : c ∈ (cards.filter (fun c => c.2 ≠ "" ∧ c.2 ∉ seen)).filter
      (fun c => f c.1) := by
    rw [List.mem_filter]
    exact ⟨hc, hf c.1⟩
  have hmem := List.mem_map_of_mem (·.2) hck
  rw [← hcards c (List.mem_of_mem_filter hc)]
  exact hmem

theorem not_in_later_batches {f : String → Bool} :
    ∀ (snaps : List (List String)) (seen : List String) (u : String),
      jokesIdOrEmpty u ∈ seen →
      ∀ b ∈ jokesRun f snaps seen, u ∉ b.1
  | [], _, _, _, _, hb => by simp [jokesRun] at hb
  | snap :: rest, seen, u, hu, b, hb => by
    rw [jokesRun] at hb
    rcases List.mem_cons.mp hb with rfl | hb
    · intro hmem
      replace hmem : u ∈ (processNewCards f seen (collectLinkObjs snap)).1 := hmem
      obtain ⟨c, hc, rfl⟩ := mem_dispatched hmem
      rw [List.mem_filter] at hc
      have hpred := of_decide_eq_true hc.2
      exact hpred.2 ((collectLinkObjs_snd hc.1) ▸ hu)
    · intro hmem
      exact not_in_later_batches rest _ u
        (seen_subset_processNewCards f seen _ hu) b hb hmem

theorem jokesRun_pairwise {f : String → Bool} (hf : ∀ u, f u = true) :
    ∀ (snaps : List (List String)) (seen : List String),
      List.Pairwise (fun a b => ∀ u ∈ a.1, u ∉ b.1) (jokesRun f snaps seen)
  | [], _ => by simp [jokesRun]
  | snap :: rest, seen => by
    rw [jokesRun]
    refine List.Pairwise.cons ?_ (jokesRun_pairwise hf rest _)
    intro b hb u hu
    have hid : jokesIdOrEmpty u ∈
        (processNewCards f seen (collectLinkObjs snap)).2.2 :=
      dispatched_id_mem_seen2 hf (fun c hc => collectLinkObjs_snd hc) hu
    exact not_in_later_batches rest _ u hid b hb

/-- C2 counterexample: when a dispatched fetch fails (`scrapeOneArticle`
returns `null`), its id is never added to `seenIds`, so the same source
URL is dispatched again in the next round — the per-round dispatched sets
are not pairwise disjoint. -/
theorem C2_counterexample :
    (jokesRun (fun _ => false) [["/jokes/joke/1/x"], ["/jokes/joke/1/x"]] []).map Prod.fst =
      [["https://www.earki.co/jokes/joke/1/x"], ["https://www.earki.co/jokes/joke/1/x"]] ∧
    ¬ List.Pairwise (fun a b => ∀ u ∈ a, u ∉ b)
      ((jokesRun (fun _ => false) [["/jokes/joke/1/x"], ["/jokes/joke/1/x"]] []).map
        Prod.fst) := by
  constructor
  · decide
  · decide

/-- C2 amended: provided every dispatched fetch succeeds, the sets of
detail URLs dispatched across rounds are pairwise disjoint — no source
URL is dispatched twice in one run.  (A URL whose fetch failed may be
re-dispatched in later rounds, since only successes enter the
seen-set.) -/
theorem C2_amended (fetchOk : String → Bool) (snaps : List (List String))
    (hf : ∀ u, fetchOk u = true) :
    List.Pairwise (fun a b => ∀ u ∈ a.1, u ∉ b.1) (jokesRun fetchOk snaps []) :=
  jokesRun_pairwise hf snaps []

/-- Witness for C2 amended on a run whose two rounds both show the same
card. -/
theorem C2_witness :
    List.Pairwise (fun a b => ∀ u ∈ a.1, u ∉ b.1)
      (jokesRun (fun _ => true) [["/jokes/joke/1/x"], ["/jokes/joke/1/x"]] []) :=
  C2_amended (fun _ => true) [["/jokes/joke/1/x"], ["/jokes/joke/1/x"]] (fun _ => rfl)

/-- C10: in the incremental jokes scraper, every URL that is dispatched to
a fetch (and a fortiori every persisted one) matches the
`/jokes/joke/<digits>` pattern — a card whose absolute URL does not match
(empty resolved id) is never dispatched and never persisted. -/
theorem C10_pattern_required (f : String → Bool) :
    ∀ (snaps : List (List String)) (seen : List String),
      ∀ b ∈ jokesRun f snaps seen, ∀ u, u ∈ b.1 ∨ u ∈ b.2 →
        ∃ d, jokesGetArticleIdFromUrl u = some d ∧ d ≠ ""
  | [], _, b, hb, _, _ => by simp [jokesRun] at hb
  | snap :: rest, seen, b, hb, u, hu => by
    rw [jokesRun] at hb
    rcases List.mem_cons.mp hb with rfl | hb
    · have hdisp : u ∈ (processNewCards f seen (collectLinkObjs snap)).1 := by
        rcases hu with h | h
        · exact h
        · exact persisted_subset_dispatched f seen _ h
      obtain ⟨c, hc, rfl⟩ := mem_dispatched hdisp
      rw [List.mem_filter] at hc
      have hpred := of_decide_eq_true hc.2
      have hid := collectLinkObjs_snd hc.1
      rw [hid] at hpred
      unfold jokesIdOrEmpty at hpred
      cases hj : jokesGetArticleIdFromUrl c.1 with
      | none => rw [hj] at hpred; exact absurd rfl hpred.1
      | some d =>
        rw [hj] at hpred
        exact ⟨d, rfl, hpred.1⟩
    · exact C10_pattern_required f rest _ b hb u hu

/-- Witness for C10 at a concrete one-round run. -/
theorem C10_witness :
    ∃ d, jokesGetArticleIdFromUrl "https://www.earki.co/jokes/joke/7/x" = some d ∧
      d ≠ "" :=
  C10_pattern_required (fun _ => true) [["/jokes/joke/7/x"]] []
    (["https://www.earki.co/jokes/joke/7/x"], ["https://www.earki.co/jokes/joke/7/x"])
    (by decide) "https://www.earki.co/jokes/joke/7/x" (Or.inl (by decide))

/-! ## Lemmas about the offset pagers -/

theorem factwatchGo_pages (o : Nat → FactwatchRender) (dF : String → Option ArticleRec) :
    ∀ (fuel p : Nat), (factwatchGo o dF fuel p).1 = List.range' p fuel
  | 0, p => by simp [factwatchGo]
  | fuel + 1, p => by
    show p :: (factwatchGo o dF fuel (p + 1)).1 = List.range' p (fuel + 1)
    rw [factwatchGo_pages o dF fuel (p + 1), List.range'_succ]

theorem earkiProcessItems_no_throw {d : String → DetailResult} :
    ∀ {items : List JachaiItem}, (∀ it ∈ items, d it.url ≠ DetailResult.threw) →
      earkiProcessItems d items =
        (items.map fun it => earkiRowOf it (contentOf (d it.url)), false)
  | [], _ => rfl
  | it :: rest, h => by
    have hit := h it (List.mem_cons_self ..)
    cases hd : d it.url with
    | threw => exact absurd hd hit
    | value c =>
      show (match d it.url with
        | DetailResult.threw => ([], true)
        | DetailResult.value content =>
          let pr := earkiProcessItems d rest
          (earkiRowOf it content :: pr.1, pr.2)) = _
      rw [hd]
      rw [earkiProcessItems_no_throw fun x hx => h x (List.mem_cons_of_mem _ hx)]
      simp only [List.map_cons, hd, contentOf]

theorem earkiGo_spec (o : Nat → JachaiRender) (d : String → DetailResult) :
    ∀ (fuel p n : Nat), p ≤ n → n < p + fuel →
      (∀ q, p ≤ q → q < n → goodPage o d q = true) → badPage o n = true →
      earkiGo o d fuel p =
        (List.range' p (n - p + 1), (List.range' p (n - p)).flatMap (earkiPageRows o d))
  | 0, p, n, hpn, hfuel, _, _ => absurd hfuel (by omega)
  | fuel + 1, p, n, hpn, hfuel, hgood, hbad => by
    rw [earkiGo.eq_def]
    dsimp only
    by_cases hp : p = n
    · subst hp
      unfold badPage at hbad
      rw [show p - p + 1 = 1 from by omega, show p - p = 0 from by omega,
        List.range'_one, List.range'_zero, List.flatMap_nil]
      cases ho : o p with
      | err => rfl
      | ok st nodes =>
        rw [ho] at hbad
        have hor := of_decide_eq_true hbad
        dsimp only
        rcases hor with hst | hnil
        · rw [if_pos hst]
        · by_cases hst : 400 ≤ st
          · rw [if_pos hst]
          · rw [if_neg hst, if_pos (by rw [hnil]; rfl)]
    · have hlt : p < n := by omega
      have hg := hgood p (Nat.le_refl p) hlt
      unfold goodPage at hg
      cases ho : o p with
      | err => rw [ho] at hg; cases hg
      | ok st nodes =>
        rw [ho] at hg
        obtain ⟨hst, hne, hnothrow⟩ := of_decide_eq_true hg
        have hpr := @earkiProcessItems_no_throw d (extractItems nodes) hnothrow
        have hrec := earkiGo_spec o d fuel (p + 1) n (by omega) (by omega)
          (fun q h1 h2 => hgood q (by omega) h2) hbad
        dsimp only
        rw [if_neg (by omega), if_neg (by simp [hne]), hpr]
        dsimp only
        rw [if_neg (by simp), hrec]
        dsimp only
        obtain ⟨k, hk⟩ : ∃ k, n - p = k + 1 := ⟨n - p - 1, by omega⟩
        rw [hk, show n - (p + 1) = k from by omega]
        rw [List.range'_succ p (k + 1) 1, List.range'_succ p k 1, List.flatMap_cons]
        refine congrArg₂ Prod.mk rfl (congrArg₂ List.append ?_ rfl)
        unfold earkiPageRows
        rw [ho]

/-- C1 counterexample: a mocked fact-watch run with zero cards on page 5
and upper bound 70 still fetches page 6 and persists its record — the
zero-card page does not stop the fact-watch offset pager, refuting "no
later page is fetched and no record from any later page is persisted". -/
theorem C1_counterexample :
    6 ∈ (factwatchMain
      (fun p => if p = 5 then FactwatchRender.ok [] else FactwatchRender.ok ["/r" ++ toString p])
      (fun u => some ⟨"id", "fact-watch", u, "fact-check", "", "", none, 1⟩)).1 ∧
    "https://www.fact-watch.org/r6" ∈
      ((factwatchMain
        (fun p => if p = 5 then FactwatchRender.ok [] else FactwatchRender.ok ["/r" ++ toString p])
        (fun u => some ⟨"id", "fact-watch", u, "fact-check", "", "", none, 1⟩)).2.map
          (fun r => r.source)) := by
  constructor
  · decide
  · decide

/-- C1 amended: only `earki.js`'s offset pager stops on an error status or
a zero-card listing — if pages 1..n-1 are good and page n is the first
bad one (error render, status ≥ 400, or no cards), exactly pages 1..n are
fetched and exactly the rows of pages 1..n-1 are persisted.  The
fact-watch pager fetches every page from 1 to 70 no matter what each page
returns; a zero-card or erroring page merely contributes no records. -/
theorem C1_amended (o : Nat → JachaiRender) (d : String → DetailResult)
    (oF : Nat → FactwatchRender) (dF : String → Option ArticleRec) (n : Nat)
    (h1 : 1 ≤ n) (h2 : n ≤ 500)
    (hgood : ∀ q, 1 ≤ q → q < n → goodPage o d q = true)
    (hbad : badPage o n = true) :
    ((earkiMain o d).1 = List.range' 1 n ∧
      (earkiMain o d).2 = (List.range' 1 (n - 1)).flatMap (earkiPageRows o d)) ∧
    (factwatchMain oF dF).1 = List.range' 1 70 := by
  refine ⟨?_, factwatchGo_pages oF dF 70 1⟩
  have h := earkiGo_spec o d 500 1 n h1 (by omega) hgood hbad
  unfold earkiMain START_PAGE MAX_PAGES
  rw [h, show n - 1 + 1 = n from by omega]
  exact ⟨rfl, rfl⟩

/-- Witness for C1 amended: one good page then a zero-card page stops the
`earki.js` pager after fetching pages 1 and 2. -/
theorem C1_witness :
    ((earkiMain
        (fun p => if p = 1 then
          JachaiRender.ok 200 [⟨some ("https://www.jachai.org/a/post-9/", "T"), none, none⟩]
        else JachaiRender.ok 200 [])
        (fun _ => DetailResult.value (some "body"))).1 = List.range' 1 2 ∧
      (earkiMain
        (fun p => if p = 1 then
          JachaiRender.ok 200 [⟨some ("https://www.jachai.org/a/post-9/", "T"), none, none⟩]
        else JachaiRender.ok 200 [])
        (fun _ => DetailResult.value (some "body"))).2 =
        (List.range' 1 (2 - 1)).flatMap (earkiPageRows
          (fun p => if p = 1 then
            JachaiRender.ok 200 [⟨some ("https://www.jachai.org/a/post-9/", "T"), none, none⟩]
          else JachaiRender.ok 200 [])
          (fun _ => DetailResult.value (some "body")))) ∧
    (factwatchMain (fun _ => FactwatchRender.err) (fun _ => none)).1 = List.range' 1 70 :=
  C1_amended
    (fun p => if p = 1 then
      JachaiRender.ok 200 [⟨some ("https://www.jachai.org/a/post-9/", "T"), none, none⟩]
    else JachaiRender.ok 200 [])
    (fun _ => DetailResult.value (some "body"))
    (fun _ => FactwatchRender.err) (fun _ => none) 2
    (by decide) (by decide) (by decide) (by decide)

end Scrapper
